import Mathlib

/-!
Verification of the Workflow-pe workflow editor core: the graph data model
(`Workflow`, `WorkflowNode`, `WorkflowEdge`), the spec exporter and importer
(`SimpleWorkflowExporter.exportToSimpleSpec` / `importFromSimpleSpec`), the
legacy exporter (`WorkflowExporter.importFromLangflowSpec`), and the
reference-rewriting logic embedded in `convertNodeToSimpleSpec`.

The definitions below are a shallow embedding of the TypeScript source:
JavaScript runtime values appearing in the dynamically-typed port maps are
modelled by `JVal`; JS objects (`Record`s) are modelled as insertion-ordered
association lists, matching `Object.keys` enumeration order; JS `Map` grouping
is modelled by first-occurrence key order plus `filter`; the JS string
operations used by the source (`startsWith`, `includes('.')`, `split('.')`,
`substring(1)`, the `/^\d+$/` test and `parseInt`) are implemented
structurally over the character list so that concrete runs reduce in the
kernel.  `Date.now()` / `new Date()` / `Math.random()` are supplied through
explicit parameters.  Code that can throw (`value.startsWith` invoked on a
non-string) is modelled in `Except`.
-/

namespace WorkflowPE

/-- JS `s.startsWith(p)`. -/
def jsStartsWith (s p : String) : Bool :=
  List.isPrefixOf p.data s.data

/-- JS `s.includes('.')`. -/
def containsDot (s : String) : Bool :=
  s.data.contains '.'

/-- JS `split('.')` on a character list: splits at every `'.'`, keeping empty
components, and returns `[[]]` for the empty string — exactly the JS
semantics for a one-character separator. -/
def splitOnDot : List Char → List (List Char)
  | [] => [[]]
  | c :: rest =>
    if c = '.' then [] :: splitOnDot rest
    else
      match splitOnDot rest with
      | h :: t => (c :: h) :: t
      | [] => [[c]]

/-- JS `s.split('.')` returning strings. -/
def splitOnDotS (s : String) : List String :=
  (splitOnDot s.data).map String.mk

/-- JS `s.substring(1)`. -/
def strDropOne (s : String) : String :=
  String.mk (s.data.drop 1)

/-- The regex test `/^\d+$/.test(s)`: nonempty and all decimal digits. -/
def isDigitsL (cs : List Char) : Bool :=
  !cs.isEmpty && cs.all Char.isDigit

/-- The regex test `/^\d+$/.test(s)` on a string. -/
def isDigitsS (s : String) : Bool :=
  isDigitsL s.data

/-- JS `parseInt` on a string already known to match `/^\d+$/`. -/
def digitsToNat (s : String) : Nat :=
  s.data.foldl (fun a c => a * 10 + (c.toNat - 48)) 0

/-- A JavaScript runtime value as it can appear in the dynamically-typed
`node.data.inputs` / `node.data.outputs` slots.  The only object shape the
source ever reads fields from is a port entry with (up to) `name`, `value`,
`reference` and `dataType` fields, so `obj` carries exactly those four
(absent fields are `undefined`).  Numbers are restricted to integers; no claim
depends on fractional values. -/
inductive JVal where
  | str (s : String)
  | num (n : Int)
  | bool (b : Bool)
  | undefined
  | nullv
  | obj (name value reference dataType : JVal)
deriving DecidableEq, Repr

/-- JS truthiness. -/
def JVal.truthy : JVal → Bool
  | .str s => !(s == "")
  | .num n => !(n == 0)
  | .bool b => b
  | .undefined => false
  | .nullv => false
  | .obj _ _ _ _ => true

/-- JS `a || b`. -/
def JVal.jor (a b : JVal) : JVal :=
  if a.truthy then a else b

/-- JS property access `v.name` (`undefined` on primitives; every access
site in the source is guarded by a truthiness check or optional chaining,
so the throwing `null.name` case is unreachable). -/
def JVal.getName : JVal → JVal
  | .obj n _ _ _ => n
  | _ => .undefined

/-- JS property access `v.value`. -/
def JVal.getValue : JVal → JVal
  | .obj _ v _ _ => v
  | _ => .undefined

/-- JS property access `v.reference`. -/
def JVal.getReference : JVal → JVal
  | .obj _ _ r _ => r
  | _ => .undefined

/-- JS property access `v.dataType`. -/
def JVal.getDataType : JVal → JVal
  | .obj _ _ _ d => d
  | _ => .undefined

/-- JS string coercion (template literals, `Record` keys). -/
def JVal.toStr : JVal → String
  | .str s => s
  | .num n => toString n
  | .bool b => if b then "true" else "false"
  | .undefined => "undefined"
  | .nullv => "null"
  | .obj _ _ _ _ => "[object Object]"

/-- The dynamic shapes `node.data.inputs` / `node.data.outputs` can take:
an array of entries (`Array.isArray` branch), a plain object keyed by name
(`typeof === 'object'` branch, insertion-ordered), or absent/falsy. -/
inductive Ports where
  | arr (entries : List JVal)
  | objMap (entries : List (String × JVal))
  | absent
deriving DecidableEq, Repr

/-- `NodeData` from `WorkflowNode.ts` (the fields the exporter/importer
read; kind-specific literal extras spread in by the importer, such as
`model`/`temperature`, are carried by no claim and read by no code path,
so they are not modelled). -/
structure NodeData where
  label : String
  description : String := ""
  inputs : Ports := .absent
  outputs : Ports := .absent
deriving DecidableEq, Repr

/-- `WorkflowNode` from `WorkflowNode.ts`.  The `type` union
(`'start' | 'end' | 'llm' | 'tool' | 'interrupt' | ...`) is modelled as a
string because the importer casts arbitrary spec strings into it
(`nodeSpec.type as any`). -/
structure WorkflowNode where
  id : String
  type : String
  position : Int × Int
  data : NodeData
deriving DecidableEq, Repr

/-- `EdgeData` from `WorkflowEdge.ts` (`label?`, `condition?`, plus the
`isTrue` flag the importer writes). -/
structure EdgeData where
  label : String := ""
  condition : Option String := none
  isTrue : Option Bool := none
deriving DecidableEq, Repr

/-- `WorkflowEdge` from `WorkflowEdge.ts`; `type` is one of
`'default' | 'conditional' | 'parallel' | 'looping'`, modelled as a string;
`style` is modelled by its `(stroke, strokeWidth)` content. -/
structure WorkflowEdge where
  id : String
  source : String
  target : String
  type : String
  data : EdgeData
  animated : Option Bool := none
  style : Option (String × Nat) := none
deriving DecidableEq, Repr

/-- `Workflow` from `Workflow.ts`; `Date`s are milliseconds. -/
structure Workflow where
  id : String
  name : String
  nodes : List WorkflowNode
  edges : List WorkflowEdge
  createdAt : Nat
  updatedAt : Nat
deriving DecidableEq, Repr

/-- The kind defaults of `WorkflowNode.initializeNodeData` (input defaults,
output defaults per node type). -/
def defaultPortsFor (type : String) : List (String × JVal) × List (String × JVal) :=
  if type == "start" then ([], [("value", .str "string")])
  else if type == "llm" then ([("context", .str "")], [("summary", .str "string")])
  else if type == "tool" then ([], [("result", .str "string")])
  else if type == "interrupt" then
    ([("string", .str "$interrupt.string")], [("value", .str "string")])
  else ([], [])

/-- `WorkflowNode.initializeNodeData`: `data.inputs || defaults` — the
defaults apply only when the field is absent (arrays and objects are truthy
in JS even when empty). -/
def initNodeData (type : String) (data : NodeData) : NodeData :=
  let d := defaultPortsFor type
  { data with
    inputs := match data.inputs with
      | .absent => .objMap d.1
      | p => p
    outputs := match data.outputs with
      | .absent => .objMap d.2
      | p => p }

/-- `new WorkflowNode(id, type, position, data)`. -/
def mkWorkflowNode (id type : String) (position : Int × Int) (data : NodeData) :
    WorkflowNode :=
  { id := id, type := type, position := position, data := initNodeData type data }

/-! ## The wire format (`SimpleWorkflowSpec` in `SimpleWorkflowExporter.ts`) -/

/-- A spec node.  `inputs`/`outputs` are declared `Record<string, string>`
in the source but hold arbitrary runtime values on the paths the exporter
takes, so values are `JVal`; the association lists are insertion-ordered. -/
structure SimpleNodeSpec where
  id : String
  type : String
  label : String
  inputs : List (String × JVal)
  outputs : List (String × JVal)
  position : Option (Int × Int) := none
deriving DecidableEq, Repr

/-- One entry of `to.conditional_edges`: `{if: {condition}, node}` — the
nested `if` wrapper is flattened into the `condition` field (`if` is a Lean
keyword). -/
structure CondEdgeSpec where
  condition : String
  node : String
deriving DecidableEq, Repr

/-- The `to` object of a spec edge group. -/
structure SimpleEdgeTo where
  conditional_edges : Option (List CondEdgeSpec) := none
  nodes : Option (List String) := none
  default : Option String := none
deriving DecidableEq, Repr

/-- A spec edge group; `from`/`to` in the source are renamed
`fromId`/`toObj` (`from` and `to` are Lean keywords). -/
structure SimpleEdgeSpec where
  fromId : String
  toObj : SimpleEdgeTo
deriving DecidableEq, Repr

/-- The full spec. -/
structure SimpleWorkflowSpec where
  version : String
  name : String
  description : String
  nodes : List SimpleNodeSpec
  edges : List SimpleEdgeSpec
deriving DecidableEq, Repr

/-! ## Exporter: `SimpleWorkflowExporter.convertNodeToSimpleSpec` -/

/-- JS `record[k] = v`: overwrite in place when the key exists, append
otherwise (preserving `Object.keys` insertion order). -/
def setKey (m : List (String × JVal)) (k : String) (v : JVal) : List (String × JVal) :=
  if m.any (fun p => p.1 == k) then
    m.map (fun p => if p.1 == k then (k, v) else p)
  else m ++ [(k, v)]

/-- The copy-pasted reference-fixing block of `convertNodeToSimpleSpec`
(lines 57-71 and its two clones), on the string payload: if the value looks
like a legacy `$<nodeId>.<N>` reference, resolve the decimal index `N`
against the referenced node's array-form output list and rewrite to
`$<nodeId>.<outputName>`; in every failure case the value is returned
unchanged. -/
def normalizeRefStr (allNodes : List WorkflowNode) (s : String) : String :=
  if jsStartsWith s "$" && containsDot s then
    match splitOnDotS s with
    | p0 :: p1 :: _ =>
      -- `referencedNodeId` in the source is `parts[0].substring(1)`, here
      -- `strDropOne p0`; `outputIndex` is `parseInt(parts[1])`, here
      -- `digitsToNat p1`.
      if isDigitsS p1 then
        match allNodes.find? (fun n => n.id == strDropOne p0) with
        | some referencedNode =>
          match referencedNode.data.outputs with
          | .arr outs =>
            match outs[digitsToNat p1]? with
            | some referencedOutput =>
              if referencedOutput.truthy && referencedOutput.getName.truthy then
                "$" ++ strDropOne p0 ++ "." ++ referencedOutput.getName.toStr
              else s
            | none => s
          | _ => s
        | none => s
      else s
    | _ => s
  else s

/-- The reference-fixing block on an arbitrary value: non-strings pass
through (the block is guarded by `typeof inputValue === 'string'`). -/
def normalizeReference (allNodes : List WorkflowNode) (v : JVal) : JVal :=
  match v with
  | .str s => .str (normalizeRefStr allNodes s)
  | _ => v

/-- Input conversion, array branch (`Array.isArray(node.data.inputs)`):
entries with a truthy `name` contribute
`inputs[input.name] = normalize(input.reference || input.value || input.dataType || 'string')`. -/
def exportArrayInputs (allNodes : List WorkflowNode) (entries : List JVal) :
    List (String × JVal) :=
  entries.foldl
    (fun inputs input =>
      if input.truthy && input.getName.truthy then
        let inputValue := ((input.getReference.jor input.getValue).jor
          input.getDataType).jor (.str "string")
        setKey inputs input.getName.toStr (normalizeReference allNodes inputValue)
      else inputs)
    []

/-- Input conversion, object branch (`typeof node.data.inputs === 'object'`):
string values are normalized directly under their key; object values with a
truthy `name` go under that name with
`input.value || input.reference || input.dataType || 'string'`; everything
else goes under the key with `input?.value || input?.reference || input?.dataType || 'string'`. -/
def exportMapInputs (allNodes : List WorkflowNode) (entries : List (String × JVal)) :
    List (String × JVal) :=
  entries.foldl
    (fun inputs kv =>
      match kv.2 with
      | .str s => setKey inputs kv.1 (.str (normalizeRefStr allNodes s))
      | input =>
        let inputValue := ((input.getValue.jor input.getReference).jor
          input.getDataType).jor (.str "string")
        if input.truthy && input.getName.truthy then
          setKey inputs input.getName.toStr (normalizeReference allNodes inputValue)
        else
          setKey inputs kv.1 (normalizeReference allNodes inputValue))
    []

/-- Output conversion, array branch: entries with a truthy `name` contribute
`outputs[output.name] = output.dataType || 'string'`. -/
def exportArrayOutputs (entries : List JVal) : List (String × JVal) :=
  entries.foldl
    (fun outputs output =>
      if output.truthy && output.getName.truthy then
        setKey outputs output.getName.toStr (output.getDataType.jor (.str "string"))
      else outputs)
    []

/-- Output conversion, object branch. -/
def exportMapOutputs (entries : List (String × JVal)) : List (String × JVal) :=
  entries.foldl
    (fun outputs kv =>
      match kv.2 with
      | .str s => setKey outputs kv.1 (.str s)
      | output =>
        if output.truthy && output.getName.truthy then
          setKey outputs output.getName.toStr (output.getDataType.jor (.str "string"))
        else
          setKey outputs kv.1 (output.getDataType.jor (.str "string")))
    []

/-- The type-based default block of `convertNodeToSimpleSpec` (lines
172-200): `start` always gains output `trigger`, `end` always gains input
`result`, `llm`/`tool` gain default ports only when the converted map is
empty. -/
def addTypeDefaults (type : String) (inputs outputs : List (String × JVal)) :
    List (String × JVal) × List (String × JVal) :=
  if type == "start" then (inputs, setKey outputs "trigger" (.str "boolean"))
  else if type == "end" then (setKey inputs "result" (.str "any"), outputs)
  else if type == "llm" then
    (if inputs.isEmpty then
       [("api_key", .str "$config.llm_api_key"), ("model", .str "$config.llm_model"),
        ("system_prompt", .str "string"), ("user_prompt", .str "string"),
        ("context", .str "string")]
     else inputs,
     if outputs.isEmpty then
       [("response", .str "string"), ("confidence", .str "number"),
        ("tokens_used", .str "number")]
     else outputs)
  else if type == "tool" then
    (if inputs.isEmpty then
       [("api_key", .str "$config.tool_api_key"), ("endpoint", .str "string"),
        ("parameters", .str "object")]
     else inputs,
     if outputs.isEmpty then [("result", .str "any"), ("status", .str "string")]
     else outputs)
  else (inputs, outputs)

/-- `SimpleWorkflowExporter.convertNodeToSimpleSpec`. -/
def convertNodeToSimpleSpec (node : WorkflowNode) (allNodes : List WorkflowNode) :
    SimpleNodeSpec :=
  let inputs := match node.data.inputs with
    | .arr es => exportArrayInputs allNodes es
    | .objMap es => exportMapInputs allNodes es
    | .absent => []
  let outputs := match node.data.outputs with
    | .arr es => exportArrayOutputs es
    | .objMap es => exportMapOutputs es
    | .absent => []
  let io := addTypeDefaults node.type inputs outputs
  { id := node.id
    type := node.type
    label := if node.data.label == "" then node.id else node.data.label
    inputs := io.1
    outputs := io.2
    position := some node.position }

/-! ## Exporter: `SimpleWorkflowExporter.convertEdgesToSimpleSpec` -/

/-- `edge.data?.condition || 'true'`. -/
def condOr (c : Option String) : String :=
  match c with
  | some s => if s == "" then "true" else s
  | none => "true"

/-- The edge list a `Map`-grouped source holds: all edges with that source,
in original order. -/
def edgesFrom (edges : List WorkflowEdge) (s : String) : List WorkflowEdge :=
  edges.filter (fun e => e.source == s)

/-- Keys of a JS `Map` built by grouping: distinct values in
first-occurrence order. -/
def firstOccurrences : List String → List String
  | [] => []
  | s :: rest => s :: (firstOccurrences rest).filter (fun x => !(x == s))

/-- Iteration order of `edgesBySource`. -/
def dedupSources (edges : List WorkflowEdge) : List String :=
  firstOccurrences (edges.map (fun e => e.source))

/-- The body of the `edgesBySource.forEach` loop for a non-start source
(lines 245-282): partition into conditional/regular; when conditionals
exist emit `conditional_edges`, `nodes` (the regular targets, or the
`['__end__']` filler) and the constant `default: '__end__'`; otherwise emit
only `nodes`. -/
def specForSource (sourceId : String) (sourceEdges : List WorkflowEdge) :
    Option SimpleEdgeSpec :=
  let conditionalEdges := sourceEdges.filter (fun e => e.type == "conditional")
  let regularEdges := sourceEdges.filter (fun e => !(e.type == "conditional"))
  if !conditionalEdges.isEmpty then
    some
      { fromId := sourceId
        toObj :=
          { conditional_edges := some (conditionalEdges.map (fun e =>
              { condition := condOr e.data.condition, node := e.target }))
            nodes := some (if !regularEdges.isEmpty then
                regularEdges.map (fun e => e.target)
              else ["__end__"])
            default := some "__end__" } }
  else if !regularEdges.isEmpty then
    some
      { fromId := sourceId
        toObj := { nodes := some (regularEdges.map (fun e => e.target)) } }
  else none

/-- The start-node group (lines 224-239): when a start node exists and has
outgoing edges, one `from: '__start__'` group listing its raw targets. -/
def startGroupPart (nodes : List WorkflowNode) (edges : List WorkflowEdge) :
    List SimpleEdgeSpec :=
  match nodes.find? (fun n => n.type == "start") with
  | some sn =>
    if !(edgesFrom edges sn.id).isEmpty then
      [{ fromId := "__start__"
         toObj := { nodes := some ((edgesFrom edges sn.id).map (fun e => e.target)) } }]
    else []
  | none => []

/-- The generic `edgesBySource.forEach` pass (lines 242-283), which skips
the start node's group. -/
def restGroupsPart (nodes : List WorkflowNode) (edges : List WorkflowEdge) :
    List SimpleEdgeSpec :=
  (dedupSources edges).filterMap (fun s =>
    if (match nodes.find? (fun n => n.type == "start") with
        | some sn => sn.id == s
        | none => false) then none
    else specForSource s (edgesFrom edges s))

/-- `SimpleWorkflowExporter.convertEdgesToSimpleSpec`: the start node's
group is emitted first as `from: '__start__'` with the raw targets; every
other source is processed generically in `Map` iteration order. -/
def convertEdgesToSimpleSpec (nodes : List WorkflowNode) (edges : List WorkflowEdge) :
    List SimpleEdgeSpec :=
  startGroupPart nodes edges ++ restGroupsPart nodes edges

/-- `SimpleWorkflowExporter.exportToSimpleSpec`. -/
def exportToSimpleSpec (workflow : Workflow) : SimpleWorkflowSpec :=
  { version := "1.0"
    name := workflow.name
    description := "Exported workflow"
    nodes := workflow.nodes.map (fun node => convertNodeToSimpleSpec node workflow.nodes)
    edges := convertEdgesToSimpleSpec workflow.nodes workflow.edges }

/-! ## Workflow mutation methods (`Workflow.ts`) -/

/-- `Workflow.addNode`: a new `Workflow` with the node appended and a fresh
`updatedAt` (`new Date()` is the `now` parameter). -/
def Workflow.addNode (now : Nat) (w : Workflow) (node : WorkflowNode) : Workflow :=
  { id := w.id, name := w.name, nodes := w.nodes ++ [node], edges := w.edges,
    createdAt := w.createdAt, updatedAt := now }

/-- `Workflow.removeNode`: filters the node out and cascade-removes every
incident edge. -/
def Workflow.removeNode (now : Nat) (w : Workflow) (nodeId : String) : Workflow :=
  { id := w.id, name := w.name,
    nodes := w.nodes.filter (fun node => !(node.id == nodeId)),
    edges := w.edges.filter (fun edge =>
      !(edge.source == nodeId) && !(edge.target == nodeId)),
    createdAt := w.createdAt, updatedAt := now }

/-- `Workflow.updateNode`. -/
def Workflow.updateNode (now : Nat) (w : Workflow) (nodeId : String)
    (updatedNode : WorkflowNode) : Workflow :=
  { id := w.id, name := w.name,
    nodes := w.nodes.map (fun node => if node.id == nodeId then updatedNode else node),
    edges := w.edges, createdAt := w.createdAt, updatedAt := now }

/-- `Workflow.addEdge`. -/
def Workflow.addEdge (now : Nat) (w : Workflow) (edge : WorkflowEdge) : Workflow :=
  { id := w.id, name := w.name, nodes := w.nodes, edges := w.edges ++ [edge],
    createdAt := w.createdAt, updatedAt := now }

/-- `Workflow.removeEdge`. -/
def Workflow.removeEdge (now : Nat) (w : Workflow) (edgeId : String) : Workflow :=
  { id := w.id, name := w.name, nodes := w.nodes,
    edges := w.edges.filter (fun edge => !(edge.id == edgeId)),
    createdAt := w.createdAt, updatedAt := now }

/-- `Workflow.updateEdge`. -/
def Workflow.updateEdge (now : Nat) (w : Workflow) (edgeId : String)
    (updatedEdge : WorkflowEdge) : Workflow :=
  { id := w.id, name := w.name, nodes := w.nodes,
    edges := w.edges.map (fun edge => if edge.id == edgeId then updatedEdge else edge),
    createdAt := w.createdAt, updatedAt := now }

/-! ## Importer: `SimpleWorkflowExporter.importFromSimpleSpec` -/

/-- A thrown JS error (the only throw site reachable in the importer is
calling `.startsWith` on a non-string value). -/
structure JsError where
  message : String
deriving DecidableEq, Repr

/-- JS `value.startsWith(p)` on a dynamic value: a `TypeError` unless the
value is a string. -/
def jvalStartsWith (v : JVal) (p : String) : Except JsError Bool :=
  match v with
  | .str s => .ok (jsStartsWith s p)
  | _ => .error { message := "value.startsWith is not a function" }

instance {ε α : Type} [DecidableEq ε] [DecidableEq α] : DecidableEq (Except ε α) :=
  fun x y =>
    match x, y with
    | .ok a, .ok b =>
      if h : a = b then .isTrue (by rw [h]) else .isFalse (by simp [h])
    | .error a, .error b =>
      if h : a = b then .isTrue (by rw [h]) else .isFalse (by simp [h])
    | .ok _, .error _ => .isFalse (by simp)
    | .error _, .ok _ => .isFalse (by simp)

/-- The environment for the importer's ambient effects: `Date.now()` /
`new Date()` and the `Math.random()` fallback position for the i-th node. -/
structure ImportEnv where
  now : Nat := 0
  randPos : Nat → Int × Int := fun _ => (0, 0)

/-- The `Object.keys(nodeSpec.inputs).forEach` loop of `importFromSimpleSpec`
(lines 303-314): each key becomes a port entry
`{name: key, value: isCfg ? value : '', dataType: 'string', reference: isCfg ? value : ''}`
where `isCfg` is `value.startsWith('$config.')` — which throws on a
non-string value (the source calls `.startsWith` twice on the same value;
one call models both, as they throw or answer identically). -/
def buildImportInputs : List (String × JVal) → Except JsError (List JVal)
  | [] => .ok []
  | (key, value) :: rest =>
    match jvalStartsWith value "$config." with
    | .error err => .error err
    | .ok isCfg =>
      match buildImportInputs rest with
      | .error err => .error err
      | .ok entries =>
        .ok (JVal.obj (.str key) (if isCfg then value else .str "")
          (if isCfg then value else .str "") (.str "string") :: entries)

/-- The `Object.keys(nodeSpec.outputs).forEach` loop: each key becomes
`{name: key, dataType: outputs[key]}` (no `value`/`reference` fields). -/
def buildImportOutputs (outs : List (String × JVal)) : List JVal :=
  outs.map (fun kv => JVal.obj (.str kv.1) .undefined .undefined kv.2)

/-- One iteration of the `spec.nodes.map` loop of `importFromSimpleSpec`:
rebuild array-form ports and construct the `WorkflowNode` (whose
constructor runs `initNodeData`; the rebuilt arrays are truthy even when
empty, so the kind defaults never replace them). -/
def importNodeFromSpec (nodeSpec : SimpleNodeSpec) (randPos : Int × Int) :
    Except JsError WorkflowNode :=
  match buildImportInputs nodeSpec.inputs with
  | .error err => .error err
  | .ok inputs =>
    .ok (mkWorkflowNode nodeSpec.id nodeSpec.type
      (nodeSpec.position.getD randPos)
      { label := if nodeSpec.label == "" then nodeSpec.id else nodeSpec.label
        description := nodeSpec.type ++ " node"
        inputs := .arr inputs
        outputs := .arr (buildImportOutputs nodeSpec.outputs) })

/-- The `spec.nodes.map` loop, threading the per-node random fallback
position. -/
def importNodes (env : ImportEnv) : List SimpleNodeSpec → Nat →
    Except JsError (List WorkflowNode)
  | [], _ => .ok []
  | ns :: rest, i =>
    match importNodeFromSpec ns (env.randPos i) with
    | .error err => .error err
    | .ok n =>
      match importNodes env rest (i + 1) with
      | .error err => .error err
      | .ok tl => .ok (n :: tl)

/-- `edgeSpec.from === '__start__' ? nodes.find(n => n.type === 'start')?.id || 'start' : edgeSpec.from`
(an empty found id is falsy, so it also falls back to the literal
`'start'`). -/
def resolveFrom (nodes : List WorkflowNode) (f : String) : String :=
  if f == "__start__" then
    match nodes.find? (fun n => n.type == "start") with
    | some n => if n.id == "" then "start" else n.id
    | none => "start"
  else f

/-- The `edgeSpec.to.nodes.forEach` loop: every target other than the
literal `'__end__'` becomes a `default`-kind edge with a fresh sequential
id; `'__end__'` entries are skipped. -/
def importRegularTargets (sourceId : String) : List String → Nat →
    List WorkflowEdge × Nat
  | [], c => ([], c)
  | t :: ts, c =>
    if t == "__end__" then importRegularTargets sourceId ts c
    else
      let e : WorkflowEdge :=
        { id := "edge-" ++ toString (c + 1), source := sourceId, target := t,
          type := "default", data := { label := "" } }
      let r := importRegularTargets sourceId ts (c + 1)
      (e :: r.1, r.2)

/-- The `edgeSpec.to.conditional_edges.forEach` loop: every entry becomes a
`conditional`-kind edge carrying its condition, label `'TRUE'`,
`isTrue: true`, `animated: false` and the green style. -/
def importCondEdges (sourceId : String) : List CondEdgeSpec → Nat →
    List WorkflowEdge × Nat
  | [], c => ([], c)
  | ce :: ces, c =>
    let e : WorkflowEdge :=
      { id := "edge-" ++ toString (c + 1), source := sourceId, target := ce.node,
        type := "conditional",
        data := { label := "TRUE", condition := some ce.condition, isTrue := some true },
        animated := some false, style := some ("#10B981", 2) }
    let r := importCondEdges sourceId ces (c + 1)
    (e :: r.1, r.2)

/-- The `if (edgeSpec.to.default && edgeSpec.to.default !== '__end__')`
block (only ever reached inside the `conditional_edges` branch): a
`conditional`-kind edge with label `'FALSE'`, condition string
`'default'`, `isTrue: false` and the red style. -/
def importDefaultBranch (sourceId : String) (dflt : Option String) (c : Nat) :
    List WorkflowEdge × Nat :=
  match dflt with
  | some d =>
    if !(d == "") && !(d == "__end__") then
      ([{ id := "edge-" ++ toString (c + 1), source := sourceId, target := d,
          type := "conditional",
          data := { label := "FALSE", condition := some "default", isTrue := some false },
          animated := some false, style := some ("#EF4444", 2) }], c + 1)
    else ([], c)
  | none => ([], c)

/-- The edges generated for one spec edge group, in source order: the
`to.nodes` loop, then — only when `to.conditional_edges` is present — the
conditional loop and the `to.default` block. -/
def edgesForSpecEdge (nodes : List WorkflowNode) (g : SimpleEdgeSpec) (c : Nat) :
    List WorkflowEdge × Nat :=
  let sourceId := resolveFrom nodes g.fromId
  let regs := match g.toObj.nodes with
    | some ts => importRegularTargets sourceId ts c
    | none => ([], c)
  match g.toObj.conditional_edges with
  | some ces =>
    let conds := importCondEdges sourceId ces regs.2
    let defs := importDefaultBranch sourceId g.toObj.default conds.2
    (regs.1 ++ conds.1 ++ defs.1, defs.2)
  | none => regs

/-- The `spec.edges.forEach` loop with its shared `edgeIdCounter`. -/
def importEdgesGo (nodes : List WorkflowNode) : List SimpleEdgeSpec → Nat →
    List WorkflowEdge × Nat
  | [], c => ([], c)
  | g :: gs, c =>
    let es := edgesForSpecEdge nodes g c
    let rest := importEdgesGo nodes gs es.2
    (es.1 ++ rest.1, rest.2)

/-- All edges reconstructed by the importer. -/
def importEdges (nodes : List WorkflowNode) (specEdges : List SimpleEdgeSpec) :
    List WorkflowEdge :=
  (importEdgesGo nodes specEdges 0).1

/-- `SimpleWorkflowExporter.importFromSimpleSpec`. -/
def importFromSimpleSpec (env : ImportEnv) (spec : SimpleWorkflowSpec) :
    Except JsError Workflow :=
  match importNodes env spec.nodes 0 with
  | .error err => .error err
  | .ok nodes =>
    .ok { id := "imported-" ++ toString env.now, name := spec.name,
          nodes := nodes, edges := importEdges nodes spec.edges,
          createdAt := env.now, updatedAt := env.now }

/-! ## Legacy importer: `WorkflowExporter.importFromLangflowSpec` -/

/-- A node of the legacy `WorkflowSpec` wire format (`WorkflowExporter.ts`). -/
structure LangflowSpecNode where
  id : String
  type : String
  label : String
  inputs : List (String × JVal)
  outputs : List (String × JVal)
deriving DecidableEq, Repr

/-- The legacy `WorkflowSpec`; its edge shape (`from`/`to` with `nodes`,
`conditional_edges`, `default`) is identical to `SimpleEdgeSpec`. -/
structure LangflowSpec where
  version : String
  name : String
  description : Option String := none
  nodes : List LangflowSpecNode
  edges : List SimpleEdgeSpec
deriving DecidableEq, Repr

/-- `WorkflowExporter.importFromLangflowSpec`.  The source constructs an
empty `Workflow`, then in both `forEach` loops calls `workflow.addNode(...)`
/ `workflow.addEdge(...)` — but those methods return a *new* `Workflow`
and the loop bodies discard the return value without ever reassigning
`workflow`, so all the constructed nodes and edges are lost.  The two
`let`-bound lists below reproduce the discarded computations (the node
data's `ioConfig` wrapper carries fields no modelled code reads). -/
def importFromLangflowSpec (env : ImportEnv) (spec : LangflowSpec) : Workflow :=
  let workflow : Workflow :=
    { id := "imported-" ++ toString env.now, name := spec.name, nodes := [],
      edges := [], createdAt := env.now, updatedAt := env.now }
  let nodeAdds : List Workflow := spec.nodes.map (fun specNode =>
    let nodeType := if specNode.type == "input" then "interrupt" else specNode.type
    let node := mkWorkflowNode specNode.id nodeType (env.randPos 0)
      { label := specNode.label }
    workflow.addNode env.now node)
  let edgeAdds : List (List Workflow) := spec.edges.map (fun specEdge =>
    let sourceOpt : Option String :=
      if specEdge.fromId == "__start__" then
        match workflow.nodes.find? (fun n => n.type == "start") with
        | some n => if n.id == "" then none else some n.id
        | none => none
      else if specEdge.fromId == "" then none else some specEdge.fromId
    match sourceOpt with
    | none => []
    | some sourceId =>
      (match specEdge.toObj.nodes with
       | some ts =>
         ts.filterMap (fun targetId =>
           let actualOpt : Option String :=
             if targetId == "__end__" then
               match workflow.nodes.find? (fun n => n.type == "end") with
               | some n => if n.id == "" then none else some n.id
               | none => none
             else if targetId == "" then none else some targetId
           actualOpt.map (fun actualTargetId =>
             workflow.addEdge env.now
               { id := sourceId ++ "-" ++ actualTargetId, source := sourceId,
                 target := actualTargetId, type := "default", data := { label := "" } }))
       | none => []) ++
      (match specEdge.toObj.conditional_edges with
       | some ces =>
         ces.map (fun condEdge =>
           workflow.addEdge env.now
             { id := sourceId ++ "-" ++ condEdge.node, source := sourceId,
               target := condEdge.node, type := "conditional",
               data := { label := "Conditional", condition := some condEdge.condition } })
       | none => []))
  let _ := nodeAdds
  let _ := edgeAdds
  workflow

/-! ## Views and predicates used by the claim statements -/

/-- The resolved (name-based) port names of a port container: entry names
(string-coerced) for the array form, keys for the map form. -/
def resolvedPortNames : Ports → List String
  | .arr es => es.map (fun e => e.getName.toStr)
  | .objMap es => es.map (fun kv => kv.1)
  | .absent => []

/-- The resolved input port names of a node. -/
def inputPortNames (n : WorkflowNode) : List String :=
  resolvedPortNames n.data.inputs

/-- The resolved output port names of a node. -/
def outputPortNames (n : WorkflowNode) : List String :=
  resolvedPortNames n.data.outputs

/-- The source string `s` is, for the exporter, the start node's id: the
first node of `start` type exists and has id `s`. -/
def exporterStartSource (nodes : List WorkflowNode) (s : String) : Prop :=
  ∃ sn, nodes.find? (fun n => n.type == "start") = some sn ∧ sn.id = s

/-- What the exporter writes into `to.nodes` for a source group that
contains a conditional edge: the non-conditional targets, or the
`['__end__']` filler when there are none. -/
def regularTargetsOrEndFiller (edges : List WorkflowEdge) (s : String) : List String :=
  let regs := (edgesFrom edges s).filter (fun e => !(e.type == "conditional"))
  if regs.isEmpty then ["__end__"] else regs.map (fun e => e.target)

/-- The `<nodeId>` component a legacy reference `$<nodeId>.<N>` points at
(the first `split('.')` component with its `$` stripped). -/
def legacyRefId (s : String) : String :=
  strDropOne ((splitOnDotS s).headD "")

/-- The decimal index component of a legacy reference (the second
`split('.')` component, parsed). -/
def legacyRefIndex (s : String) : Nat :=
  digitsToNat ((splitOnDotS s)[1]?.getD "")

/-- Whether the segment of `s` before its first `'.'` is a nonempty digit
string — exactly the proviso under which a name-based reference
`$<nodeId>.<name>` would be mistaken for a legacy indexed one again. -/
def digitLeadingSegment (s : String) : Bool :=
  isDigitsL ((splitOnDot s.data).headD [])

/-! ## Concrete sample inputs for witnesses and counterexamples -/

/-- `node7` of spec scenario C: declared outputs `["status", "result"]` in
array form. -/
def node7 : WorkflowNode :=
  { id := "node7"
    type := "tool"
    position := (0, 0)
    data := { label := "n"
              outputs := .arr [JVal.obj (.str "status") .undefined .undefined (.str "string"),
                JVal.obj (.str "result") .undefined .undefined (.str "string")] } }

/-- A node whose first output is *named* `"1"` — the name survives a
rewrite but still matches the legacy digit pattern. -/
def nodeDigitNamedOutput : WorkflowNode :=
  { id := "a"
    type := "tool"
    position := (0, 0)
    data := { label := "n"
              outputs := .arr [JVal.obj (.str "1") .undefined .undefined .undefined,
                JVal.obj (.str "x") .undefined .undefined .undefined] } }

/-- A start node with map-form ports (output `value` only). -/
def startNodeSample : WorkflowNode :=
  { id := "s"
    type := "start"
    position := (0, 0)
    data := { label := "Start"
              inputs := .objMap []
              outputs := .objMap [("value", .str "string")] } }

/-- An `llm` node with array-form ports. -/
def llmNodeSample : WorkflowNode :=
  { id := "a"
    type := "llm"
    position := (1, 1)
    data := { label := "A"
              inputs := .arr [JVal.obj (.str "user_prompt") (.str "hi") .undefined (.str "string")]
              outputs := .arr [JVal.obj (.str "response") .undefined .undefined (.str "string")] } }

/-- An `end` node with empty map-form ports. -/
def endNodeSample : WorkflowNode :=
  { id := "b"
    type := "end"
    position := (2, 2)
    data := { label := "B"
              inputs := .objMap []
              outputs := .objMap [] } }

/-- A well-formed sample workflow: `start → llm`, and from the llm node a
conditional and a default edge into the end node. -/
def sampleWorkflow : Workflow :=
  { id := "w"
    name := "W"
    createdAt := 0
    updatedAt := 0
    nodes := [startNodeSample, llmNodeSample, endNodeSample]
    edges := [
      { id := "e1", source := "s", target := "a", type := "default", data := {} },
      { id := "e2", source := "a", target := "b", type := "conditional",
        data := { condition := some "x > 0" } },
      { id := "e3", source := "a", target := "b", type := "default", data := {} }] }

/-- The round-tripped sample workflow (the import is total on it). -/
def sampleRoundTripped : Workflow :=
  ((importFromSimpleSpec {} (exportToSimpleSpec sampleWorkflow)).toOption).getD
    { id := "", name := "", nodes := [], edges := [], createdAt := 0, updatedAt := 0 }

/-- A workflow consisting of a single start node and no edges. -/
def startOnlyWorkflow : Workflow :=
  { id := "w0"
    name := "W0"
    createdAt := 0
    updatedAt := 0
    nodes := [startNodeSample]
    edges := [] }

/-- A source group with one conditional and exactly one plain edge. -/
def condPlusPlainEdges : List WorkflowEdge :=
  [{ id := "e1", source := "a", target := "b", type := "conditional",
     data := { condition := some "c1" } },
   { id := "e2", source := "a", target := "c", type := "default", data := {} }]

/-- A source group with a conditional edge and no plain edge. -/
def condOnlyEdges : List WorkflowEdge :=
  [{ id := "e1", source := "a", target := "b", type := "conditional",
     data := { condition := some "c1" } }]

/-- The group the exporter emits for `condPlusPlainEdges`. -/
def condGroupSample : SimpleEdgeSpec :=
  { fromId := "a"
    toObj := { conditional_edges := some [{ condition := "c1", node := "b" }]
               nodes := some ["c"]
               default := some "__end__" } }

/-- A workflow with exactly one end node `e` receiving one plain and one
conditional edge. -/
def endTargetWorkflow : Workflow :=
  { id := "w3"
    name := "W3"
    createdAt := 0
    updatedAt := 0
    nodes := [{ id := "n1", type := "tool", position := (0, 0), data := { label := "N1" } },
              { id := "e", type := "end", position := (1, 1), data := { label := "E" } }]
    edges := [
      { id := "e1", source := "n1", target := "e", type := "default", data := {} },
      { id := "e2", source := "n1", target := "e", type := "conditional",
        data := { condition := some "c" } }] }

/-- A spec whose only node is an end node and whose single edge comes from
`__start__` and targets `__end__` plus a plain id — no start node exists. -/
def sentinelSpec : SimpleWorkflowSpec :=
  { version := "1.0"
    name := "S"
    description := ""
    nodes := [{ id := "e", type := "end", label := "E", inputs := [], outputs := [] }]
    edges := [{ fromId := "__start__", toObj := { nodes := some ["__end__", "b"] } }] }

/-- A spec exercising `to.default`: once without `conditional_edges` and
once with (an empty) `conditional_edges` list. -/
def defaultBranchSpec : SimpleWorkflowSpec :=
  { version := "1.0"
    name := "D"
    description := ""
    nodes := []
    edges := [{ fromId := "a", toObj := { default := some "b" } },
              { fromId := "a2", toObj := { conditional_edges := some [], default := some "b" } }] }

/-- A spec edge group carrying all three `to` fields, for the import-side
witnesses. -/
def richImportSpec : SimpleWorkflowSpec :=
  { version := "1.0"
    name := "R"
    description := ""
    nodes := []
    edges := [{ fromId := "u"
                toObj := { conditional_edges := some [{ condition := "c", node := "w" }]
                           nodes := some ["v", "__end__"]
                           default := some "d" } }] }

/-- The workflow reconstructed from `richImportSpec`. -/
def richImported : Workflow :=
  ((importFromSimpleSpec {} richImportSpec).toOption).getD
    { id := "", name := "", nodes := [], edges := [], createdAt := 0, updatedAt := 0 }

/-- A spec node whose `inputs` map holds a JS number — the shape §3 of the
spec allows on the wire. -/
def numericInputSpec : SimpleWorkflowSpec :=
  { version := "1.0"
    name := "N"
    description := ""
    nodes := [{ id := "n", type := "llm", label := "L",
                inputs := [("x", JVal.num 5)], outputs := [] }]
    edges := [] }

/-- A small all-string spec for the totality witness. -/
def stringInputSpec : SimpleWorkflowSpec :=
  { version := "1.0"
    name := "T"
    description := ""
    nodes := [{ id := "n", type := "tool", label := "L",
                inputs := [("x", JVal.str "$config.k"), ("y", JVal.str "lit")],
                outputs := [("r", JVal.str "string")] }]
    edges := [{ fromId := "n", toObj := { nodes := some ["n"] } }] }

/-! ## Lemmas about the split/reference machinery -/

theorem splitOnDot_ne_nil (cs : List Char) : splitOnDot cs ≠ [] := by
  induction cs with
  | nil => simp [splitOnDot]
  | cons c rest ih =>
    simp only [splitOnDot]
    split
    · simp
    · split
      · simp
      · simp

theorem splitOnDot_no_dot (cs : List Char) :
    ∀ l ∈ splitOnDot cs, '.' ∉ l := by
  induction cs with
  | nil => intro l hl; simp [splitOnDot] at hl; simp [hl]
  | cons c rest ih =>
    intro l hl
    simp only [splitOnDot] at hl
    split at hl
    · rcases List.mem_cons.mp hl with h | h
      · simp [h]
      · exact ih l h
    · rename_i hc
      split at hl
      · rename_i h t hsplit
        rcases List.mem_cons.mp hl with h1 | h1
        · subst h1
          intro hmem
          rcases List.mem_cons.mp hmem with h2 | h2
          · exact hc h2.symm
          · exact ih h (hsplit ▸ List.mem_cons_self h t) h2
        · exact ih l (hsplit ▸ List.mem_cons_of_mem h h1)
      · rename_i hsplit
        exact absurd hsplit (splitOnDot_ne_nil rest)

theorem splitOnDot_append (a b : List Char) (ha : '.' ∉ a) :
    splitOnDot (a ++ '.' :: b) = a :: splitOnDot b := by
  induction a with
  | nil => simp [splitOnDot]
  | cons c a' ih =>
    have hc : ¬ (c = '.') := fun h => ha (h ▸ List.mem_cons_self c a')
    have ha' : '.' ∉ a' := fun h => ha (List.mem_cons_of_mem c h)
    simp only [List.cons_append, splitOnDot, if_neg hc]
    rw [List.append_eq, ih ha']

/-- Every run of `normalizeRefStr` either returns its argument unchanged or
performs the legacy rewrite, in which case all the guards held. -/
theorem normalizeRefStr_cases (allNodes : List WorkflowNode) (s : String) :
    normalizeRefStr allNodes s = s ∨
    ∃ p0 p1 rest rn outs o,
      splitOnDotS s = p0 :: p1 :: rest ∧
      isDigitsS p1 = true ∧
      allNodes.find? (fun n => n.id == strDropOne p0) = some rn ∧
      rn.data.outputs = .arr outs ∧
      outs[digitsToNat p1]? = some o ∧
      o.truthy = true ∧ o.getName.truthy = true ∧
      normalizeRefStr allNodes s = "$" ++ strDropOne p0 ++ "." ++ o.getName.toStr := by
  unfold normalizeRefStr
  split
  · split
    · rename_i p0 p1 rest hsplit
      split
      · rename_i hdig
        split
        · rename_i rn hfind
          split
          · rename_i outs houts
            split
            · rename_i o hget
              split
              · rename_i htruthy
                rcases (by simpa using htruthy :
                  o.truthy = true ∧ o.getName.truthy = true) with ⟨h1, h2⟩
                exact Or.inr ⟨p0, p1, rest, rn, outs, o, hsplit, hdig, hfind,
                  houts, hget, h1, h2, rfl⟩
              · exact Or.inl rfl
            · exact Or.inl rfl
          · exact Or.inl rfl
        · exact Or.inl rfl
      · exact Or.inl rfl
    · exact Or.inl rfl
  · exact Or.inl rfl

/-- A rewritten reference `$<refId>.<name>` is a fixed point of
`normalizeRefStr` as soon as `refId` is dot-free and `name` does not begin
with a digit segment: on the second pass the guards fail at the
`/^\d+$/` test. -/
theorem normalizeRefStr_rewritten_fixed (allNodes : List WorkflowNode)
    (refId name : String)
    (hrefDot : '.' ∉ refId.data)
    (hlead : digitLeadingSegment name = false) :
    normalizeRefStr allNodes ("$" ++ refId ++ "." ++ name) =
      "$" ++ refId ++ "." ++ name := by
  have hdata : ("$" ++ refId ++ "." ++ name).data
      = ('$' :: refId.data) ++ '.' :: name.data := by
    simp [String.data_append]
  have hnodot : '.' ∉ ('$' :: refId.data) := by
    intro hmem
    rcases List.mem_cons.mp hmem with h | h
    · exact absurd h.symm (by decide)
    · exact hrefDot h
  obtain ⟨h1, t1, hnd⟩ : ∃ h1 t1, splitOnDot name.data = h1 :: t1 := by
    cases hsd : splitOnDot name.data with
    | nil => exact absurd hsd (splitOnDot_ne_nil name.data)
    | cons h1 t1 => exact ⟨h1, t1, rfl⟩
  have hsplit : splitOnDotS ("$" ++ refId ++ "." ++ name)
      = String.mk ('$' :: refId.data) :: String.mk h1 :: t1.map String.mk := by
    simp only [splitOnDotS, hdata, splitOnDot_append _ _ hnodot, hnd, List.map_cons]
  have hdig : isDigitsS (String.mk h1) = false := by
    have : digitLeadingSegment name = isDigitsL h1 := by
      simp [digitLeadingSegment, hnd]
    simpa [isDigitsS, this] using hlead
  unfold normalizeRefStr
  split
  · rw [hsplit]
    simp [hdig]
  · rfl

/-- CLAIM C7 (amended): the exporter's reference rewriting is idempotent
provided no referenced node declares an (array-form) output whose
string-coerced name begins with a nonempty decimal-digit segment; an
already-rewritten `$<nodeId>.<outputName>` then fails the legacy
`/^\d+$/` index test and passes through unchanged.  (Without the proviso,
idempotence fails — see the counterexample.) -/
theorem C7_normalize_idempotent (allNodes : List WorkflowNode) (v : JVal)
    (h : ∀ n ∈ allNodes, ∀ outs, n.data.outputs = Ports.arr outs →
      ∀ o ∈ outs, digitLeadingSegment o.getName.toStr = false) :
    normalizeReference allNodes (normalizeReference allNodes v) =
      normalizeReference allNodes v := by
  cases v with
  | str s =>
    show JVal.str (normalizeRefStr allNodes (normalizeRefStr allNodes s))
        = JVal.str (normalizeRefStr allNodes s)
    congr 1
    rcases normalizeRefStr_cases allNodes s with hc |
      ⟨p0, p1, rest, rn, outs, o, hsplit, _, hfind, houts, hget, _, _, hres⟩
    · rw [hc]; exact hc
    · rw [hres]
      have hmemNode : rn ∈ allNodes := List.mem_of_find?_eq_some hfind
      have hmemOut : o ∈ outs := List.getElem?_mem hget
      have hlead : digitLeadingSegment o.getName.toStr = false :=
        h rn hmemNode outs houts o hmemOut
      have hp0dot : '.' ∉ (strDropOne p0).data := by
        obtain ⟨l0, hl0mem, hl0⟩ : ∃ l0, l0 ∈ splitOnDot s.data ∧ String.mk l0 = p0 := by
          have := congrArg (fun l => l.headD "") hsplit
          cases hsd : splitOnDot s.data with
          | nil => exact absurd hsd (splitOnDot_ne_nil s.data)
          | cons a t =>
            refine ⟨a, by simp [hsd], ?_⟩
            have h2 : splitOnDotS s = String.mk a :: t.map String.mk := by
              simp [splitOnDotS, hsd]
            rw [h2] at hsplit
            exact (List.cons_eq_cons.mp hsplit).1
        intro hdot
        have : '.' ∈ l0 := by
          have hdrop : (strDropOne p0).data = l0.drop 1 := by
            rw [← hl0]; rfl
          exact List.drop_subset 1 l0 (hdrop ▸ hdot)
        exact splitOnDot_no_dot s.data l0 hl0mem this
      exact normalizeRefStr_rewritten_fixed allNodes (strDropOne p0)
        o.getName.toStr hp0dot hlead
  | num n => rfl
  | bool b => rfl
  | undefined => rfl
  | nullv => rfl
  | obj a b c d => rfl

/-- CLAIM C7 witness: the amended idempotence theorem applied to a concrete
node list (digit-free output names) and a concrete legacy value. -/
theorem C7_normalize_idempotent_witness :
    (∀ n ∈ [node7], ∀ outs, n.data.outputs = Ports.arr outs →
      ∀ o ∈ outs, digitLeadingSegment o.getName.toStr = false) ∧
    normalizeReference [node7] (normalizeReference [node7] (.str "$node7.0")) =
      normalizeReference [node7] (.str "$node7.0") :=
  ⟨by
    intro n hn outs houts o ho
    have hn' : n = node7 := by simpa using hn
    subst hn'
    have houts' : Ports.arr [JVal.obj (.str "status") .undefined .undefined (.str "string"),
        JVal.obj (.str "result") .undefined .undefined (.str "string")] = Ports.arr outs := houts
    injection houts' with he
    subst he
    rcases (by simpa using ho :
      o = JVal.obj (.str "status") .undefined .undefined (.str "string") ∨
      o = JVal.obj (.str "result") .undefined .undefined (.str "string")) with h | h <;>
      subst h <;> decide,
   C7_normalize_idempotent [node7] (.str "$node7.0") (by
    intro n hn outs houts o ho
    have hn' : n = node7 := by simpa using hn
    subst hn'
    have houts' : Ports.arr [JVal.obj (.str "status") .undefined .undefined (.str "string"),
        JVal.obj (.str "result") .undefined .undefined (.str "string")] = Ports.arr outs := houts
    injection houts' with he
    subst he
    rcases (by simpa using ho :
      o = JVal.obj (.str "status") .undefined .undefined (.str "string") ∨
      o = JVal.obj (.str "result") .undefined .undefined (.str "string")) with h | h <;>
      subst h <;> decide)⟩

/-- CLAIM C7 counterexample: with an output *named* `"1"`, the rewrite of
`"$a.0"` produces `"$a.1"`, which the second pass rewrites again to
`"$a.x"` — `normalizeReference` applied twice differs from once, so the
claim as stated (idempotence for every input value and node list) is
false. -/
theorem C7_normalize_not_idempotent_counterexample :
    normalizeReference [nodeDigitNamedOutput] (.str "$a.0") = .str "$a.1" ∧
    normalizeReference [nodeDigitNamedOutput]
      (normalizeReference [nodeDigitNamedOutput] (.str "$a.0")) = .str "$a.x" ∧
    (JVal.str "$a.x") ≠ (JVal.str "$a.1") := by
  refine ⟨by decide, by decide, by decide⟩

/-- CLAIM C8: the legacy value `"$node7.0"`, with `node7` declaring outputs
`["status", "result"]`, normalizes to `"$node7.status"` (ordinal lookup
into the referenced node's output list); and whenever resolution fails —
no node carries the referenced id, or the decimal index is out of range of
the referenced node's output array — the value is returned unchanged (the
total function `normalizeReference` never throws). -/
theorem C8_normalize_ordinal_lookup :
    normalizeReference [node7] (.str "$node7.0") = .str "$node7.status" ∧
    (∀ (allNodes : List WorkflowNode) (s : String),
      allNodes.find? (fun n => n.id == legacyRefId s) = none →
      normalizeReference allNodes (.str s) = .str s) ∧
    (∀ (allNodes : List WorkflowNode) (s : String) (rn : WorkflowNode)
      (outs : List JVal),
      allNodes.find? (fun n => n.id == legacyRefId s) = some rn →
      rn.data.outputs = .arr outs →
      outs.length ≤ legacyRefIndex s →
      normalizeReference allNodes (.str s) = .str s) := by
  refine ⟨by decide, ?_, ?_⟩
  · intro allNodes s hnone
    show JVal.str (normalizeRefStr allNodes s) = JVal.str s
    congr 1
    rcases normalizeRefStr_cases allNodes s with hc |
      ⟨p0, p1, rest, rn, outs, o, hsplit, _, hfind, _, _, _, _, _⟩
    · exact hc
    · have hid : legacyRefId s = strDropOne p0 := by
        simp [legacyRefId, hsplit]
      rw [hid] at hnone
      rw [hnone] at hfind
      cases hfind
  · intro allNodes s rn outs hfindEq houts hlen
    show JVal.str (normalizeRefStr allNodes s) = JVal.str s
    congr 1
    rcases normalizeRefStr_cases allNodes s with hc |
      ⟨p0, p1, rest, rn', outs', o, hsplit, _, hfind, houts', hget, _, _, _⟩
    · exact hc
    · have hid : legacyRefId s = strDropOne p0 := by
        simp [legacyRefId, hsplit]
      rw [hid] at hfindEq
      rw [hfindEq] at hfind
      cases hfind
      have houtsEq : outs = outs' := by
        rw [houts] at houts'
        cases houts'
        rfl
      have hidx : legacyRefIndex s = digitsToNat p1 := by
        simp [legacyRefIndex, hsplit]
      rw [houtsEq, hidx] at hlen
      have hlt : digitsToNat p1 < outs'.length :=
        List.getElem?_eq_some.mp hget |>.choose
      omega


/-- CLAIM C8 witness: the failure clauses applied concretely — an unknown
node id (`$z.3` over an empty node list) and an out-of-range index
(`$node7.9` with only two declared outputs). -/
theorem C8_normalize_ordinal_lookup_witness :
    normalizeReference [] (.str "$z.3") = .str "$z.3" ∧
    normalizeReference [node7] (.str "$node7.9") = .str "$node7.9" :=
  ⟨C8_normalize_ordinal_lookup.2.1 [] "$z.3" (by decide),
   C8_normalize_ordinal_lookup.2.2 [node7] "$node7.9" node7
     [JVal.obj (.str "status") .undefined .undefined (.str "string"),
      JVal.obj (.str "result") .undefined .undefined (.str "string")]
     (by decide) rfl (by decide)⟩

/-- CLAIM C9: every mutation operation on the `Workflow` aggregate returns
a new `Workflow` (the receiver, a pure value in this embedding, is untouched
by construction — each method builds a fresh record from `this`) whose
`updatedAt` is the fresh timestamp and whose `id`, `name` and `createdAt`
are unchanged; the node/edge lists change exactly as the operation
prescribes, and `removeNode` cascade-removes precisely the edges incident
to the removed node id while keeping all other nodes and edges. -/
theorem C9_workflow_mutations_frame (now : Nat) (w : Workflow)
    (n un : WorkflowNode) (e ue : WorkflowEdge) (nid eid : String) :
    ((w.addNode now n).id = w.id ∧ (w.addNode now n).name = w.name ∧
      (w.addNode now n).createdAt = w.createdAt ∧
      (w.addNode now n).updatedAt = now ∧
      (w.addNode now n).nodes = w.nodes ++ [n] ∧
      (w.addNode now n).edges = w.edges) ∧
    ((w.removeNode now nid).id = w.id ∧ (w.removeNode now nid).name = w.name ∧
      (w.removeNode now nid).createdAt = w.createdAt ∧
      (w.removeNode now nid).updatedAt = now ∧
      (∀ x, x ∈ (w.removeNode now nid).nodes ↔ x ∈ w.nodes ∧ x.id ≠ nid) ∧
      (∀ x, x ∈ (w.removeNode now nid).edges ↔
        x ∈ w.edges ∧ x.source ≠ nid ∧ x.target ≠ nid)) ∧
    ((w.updateNode now nid un).id = w.id ∧ (w.updateNode now nid un).name = w.name ∧
      (w.updateNode now nid un).createdAt = w.createdAt ∧
      (w.updateNode now nid un).updatedAt = now ∧
      (w.updateNode now nid un).nodes =
        w.nodes.map (fun x => if x.id == nid then un else x) ∧
      (w.updateNode now nid un).edges = w.edges) ∧
    ((w.addEdge now e).id = w.id ∧ (w.addEdge now e).name = w.name ∧
      (w.addEdge now e).createdAt = w.createdAt ∧
      (w.addEdge now e).updatedAt = now ∧
      (w.addEdge now e).nodes = w.nodes ∧
      (w.addEdge now e).edges = w.edges ++ [e]) ∧
    ((w.removeEdge now eid).id = w.id ∧ (w.removeEdge now eid).name = w.name ∧
      (w.removeEdge now eid).createdAt = w.createdAt ∧
      (w.removeEdge now eid).updatedAt = now ∧
      (w.removeEdge now eid).nodes = w.nodes ∧
      (∀ x, x ∈ (w.removeEdge now eid).edges ↔ x ∈ w.edges ∧ x.id ≠ eid)) ∧
    ((w.updateEdge now eid ue).id = w.id ∧ (w.updateEdge now eid ue).name = w.name ∧
      (w.updateEdge now eid ue).createdAt = w.createdAt ∧
      (w.updateEdge now eid ue).updatedAt = now ∧
      (w.updateEdge now eid ue).nodes = w.nodes ∧
      (w.updateEdge now eid ue).edges =
        w.edges.map (fun x => if x.id == eid then ue else x)) := by
  refine ⟨⟨rfl, rfl, rfl, rfl, rfl, rfl⟩,
    ⟨rfl, rfl, rfl, rfl, ?_, ?_⟩,
    ⟨rfl, rfl, rfl, rfl, rfl, rfl⟩,
    ⟨rfl, rfl, rfl, rfl, rfl, rfl⟩,
    ⟨rfl, rfl, rfl, rfl, rfl, ?_⟩,
    ⟨rfl, rfl, rfl, rfl, rfl, rfl⟩⟩
  · intro x
    simp [Workflow.removeNode, List.mem_filter]
  · intro x
    simp [Workflow.removeNode, List.mem_filter, and_assoc]
  · intro x
    simp [Workflow.removeEdge, List.mem_filter]

/-- CLAIM C10: for every input spec, `WorkflowExporter.importFromLangflowSpec`
returns a `Workflow` with empty `nodes` and `edges`: the loop bodies call
the immutable `workflow.addNode` / `workflow.addEdge` and discard the
returned `Workflow`, never reassigning the local `workflow`. -/
theorem C10_import_langflow_returns_empty (env : ImportEnv) (spec : LangflowSpec) :
    (importFromLangflowSpec env spec).nodes = [] ∧
    (importFromLangflowSpec env spec).edges = [] :=
  ⟨rfl, rfl⟩

/-! ## Export-side lemmas: which groups the exporter emits -/

theorem mem_firstOccurrences (a : String) :
    ∀ l : List String, a ∈ l → a ∈ firstOccurrences l := by
  intro l
  induction l with
  | nil => intro h; cases h
  | cons s rest ih =>
    intro h
    rcases List.mem_cons.mp h with h1 | h1
    · exact h1 ▸ List.mem_cons_self _ _
    · by_cases he : a = s
      · exact he ▸ List.mem_cons_self _ _
      · exact List.mem_cons_of_mem _ (List.mem_filter.mpr ⟨ih h1, by simp [he]⟩)

theorem mem_edgesFrom_self (edges : List WorkflowEdge) (e : WorkflowEdge)
    (he : e ∈ edges) : e ∈ edgesFrom edges e.source :=
  List.mem_filter.mpr ⟨he, by simp⟩

/-- The group spec emitted for a source whose edge group contains a
conditional edge. -/
theorem specForSource_of_cond_ne_nil (s : String) (es : List WorkflowEdge)
    (h : es.filter (fun e => e.type == "conditional") ≠ []) :
    specForSource s es = some
      { fromId := s
        toObj :=
          { conditional_edges := some
              ((es.filter (fun e => e.type == "conditional")).map (fun e =>
                { condition := condOr e.data.condition, node := e.target }))
            nodes := some
              (if !(es.filter (fun e => !(e.type == "conditional"))).isEmpty then
                (es.filter (fun e => !(e.type == "conditional"))).map (fun e => e.target)
              else ["__end__"])
            default := some "__end__" } } := by
  have hb : (es.filter (fun e => e.type == "conditional")).isEmpty = false := by
    simpa [List.isEmpty_iff] using h
  simp only [specForSource, hb]
  rfl

/-- The group spec emitted for a source whose edge group has no conditional
edge but at least one other edge. -/
theorem specForSource_of_cond_nil (s : String) (es : List WorkflowEdge)
    (hc : es.filter (fun e => e.type == "conditional") = [])
    (hr : es.filter (fun e => !(e.type == "conditional")) ≠ []) :
    specForSource s es = some
      { fromId := s
        toObj :=
          { nodes :=
              some ((es.filter (fun e => !(e.type == "conditional"))).map
                (fun e => e.target)) } } := by
  have hb : (es.filter (fun e => !(e.type == "conditional"))).isEmpty = false := by
    simpa [List.isEmpty_iff] using hr
  simp only [specForSource, hc, hb]
  rfl

/-- Every emitted spec of the generic pass comes from `specForSource` at its
own `fromId`, for a non-start source that occurs in the edge list. -/
theorem restGroupsPart_mem_iff (nodes : List WorkflowNode)
    (edges : List WorkflowEdge) (g : SimpleEdgeSpec) :
    g ∈ restGroupsPart nodes edges ↔
      ∃ s ∈ dedupSources edges,
        (match nodes.find? (fun n => n.type == "start") with
         | some sn => sn.id == s
         | none => false) = false ∧
        specForSource s (edgesFrom edges s) = some g := by
  constructor
  · intro hg
    rcases List.mem_filterMap.mp hg with ⟨s, hs, hfm⟩
    refine ⟨s, hs, ?_, ?_⟩
    · by_contra hb
      have hbt : (match nodes.find? (fun n => n.type == "start") with
          | some sn => sn.id == s
          | none => false) = true := by
        cases hmm : (match nodes.find? (fun n => n.type == "start") with
            | some sn => sn.id == s
            | none => false) with
        | true => rfl
        | false => exact absurd hmm hb
      rw [if_pos hbt] at hfm
      cases hfm
    · cases hmm : (match nodes.find? (fun n => n.type == "start") with
          | some sn => sn.id == s
          | none => false) with
      | true => rw [if_pos hmm] at hfm; cases hfm
      | false => rwa [if_neg (by simp [hmm])] at hfm
  · intro ⟨s, hs, hmatch, hspec⟩
    exact List.mem_filterMap.mpr ⟨s, hs, by rw [if_neg (by simp [hmatch])]; exact hspec⟩

/-- For every edge whose source is not the exporter's start node, the
exporter emits a group at that raw source id in which the edge's raw target
appears: as a `conditional_edges` entry (with the `condition || 'true'`
defaulting) for a conditional edge, inside `to.nodes` otherwise.  No
`'__end__'` substitution takes place. -/
theorem export_group_mem (nodes : List WorkflowNode) (edges : List WorkflowEdge)
    (e : WorkflowEdge) (he : e ∈ edges)
    (hns : ¬ exporterStartSource nodes e.source) :
    ∃ g ∈ convertEdgesToSimpleSpec nodes edges, g.fromId = e.source ∧
      (e.type = "conditional" →
        ∃ ces, g.toObj.conditional_edges = some ces ∧
          ({ condition := condOr e.data.condition, node := e.target } : CondEdgeSpec) ∈ ces) ∧
      (e.type ≠ "conditional" →
        ∃ ts, g.toObj.nodes = some ts ∧ e.target ∈ ts) := by
  have hsrcMem : e.source ∈ dedupSources edges :=
    mem_firstOccurrences _ _ (List.mem_map_of_mem (fun x => x.source) he)
  have hgroup : e ∈ edgesFrom edges e.source := mem_edgesFrom_self edges e he
  have hguard : (match nodes.find? (fun n => n.type == "start") with
      | some sn => sn.id == e.source
      | none => false) = false := by
    cases hf : nodes.find? (fun n => n.type == "start") with
    | none => rfl
    | some sn =>
      simp only []
      by_contra hb
      have : sn.id = e.source := by
        cases hmm : (sn.id == e.source) with
        | true => exact beq_iff_eq.mp hmm
        | false => exact absurd hmm hb
      exact hns ⟨sn, hf, this⟩
  by_cases hc : e.type = "conditional"
  · have hcmem : e ∈ (edgesFrom edges e.source).filter (fun x => x.type == "conditional") :=
      List.mem_filter.mpr ⟨hgroup, by simp [hc]⟩
    have hcne : (edgesFrom edges e.source).filter (fun x => x.type == "conditional") ≠ [] :=
      List.ne_nil_of_mem hcmem
    have hmemg := List.mem_append_right (startGroupPart nodes edges)
      ((restGroupsPart_mem_iff nodes edges _).mpr
        ⟨e.source, hsrcMem, hguard, specForSource_of_cond_ne_nil _ _ hcne⟩)
    refine ⟨_, hmemg, rfl, fun _ => ⟨_, rfl, ?_⟩, fun hnc => absurd hc hnc⟩
    exact List.mem_map_of_mem
      (fun x => ({ condition := condOr x.data.condition, node := x.target } : CondEdgeSpec))
      hcmem
  · have hrmem : e ∈ (edgesFrom edges e.source).filter (fun x => !(x.type == "conditional")) :=
      List.mem_filter.mpr ⟨hgroup, by simp [hc]⟩
    have hrne : (edgesFrom edges e.source).filter (fun x => !(x.type == "conditional")) ≠ [] :=
      List.ne_nil_of_mem hrmem
    have hrb : ((edgesFrom edges e.source).filter
        (fun x => !(x.type == "conditional"))).isEmpty = false := by
      simpa [List.isEmpty_iff] using hrne
    by_cases hcc : (edgesFrom edges e.source).filter (fun x => x.type == "conditional") = []
    · have hmemg := List.mem_append_right (startGroupPart nodes edges)
        ((restGroupsPart_mem_iff nodes edges _).mpr
          ⟨e.source, hsrcMem, hguard, specForSource_of_cond_nil _ _ hcc hrne⟩)
      refine ⟨_, hmemg, rfl, fun hcond => absurd hcond hc, fun _ => ⟨_, rfl, ?_⟩⟩
      exact List.mem_map_of_mem (fun x => x.target) hrmem
    · have hmemg := List.mem_append_right (startGroupPart nodes edges)
        ((restGroupsPart_mem_iff nodes edges _).mpr
          ⟨e.source, hsrcMem, hguard, specForSource_of_cond_ne_nil _ _ hcc⟩)
      refine ⟨_, hmemg, rfl, fun hcond => absurd hcond hc, fun _ => ⟨_, rfl, ?_⟩⟩
      rw [hrb]
      simpa using List.mem_map_of_mem (fun x => x.target) hrmem

/-- For every edge leaving the exporter's start node, the start group is
emitted with `from: '__start__'` and the edge's raw target among its
`to.nodes`. -/
theorem export_start_mem (nodes : List WorkflowNode) (edges : List WorkflowEdge)
    (sn : WorkflowNode)
    (hfind : nodes.find? (fun n => n.type == "start") = some sn)
    (e : WorkflowEdge) (he : e ∈ edges) (hsrc : e.source = sn.id) :
    ∃ g ∈ convertEdgesToSimpleSpec nodes edges, g.fromId = "__start__" ∧
      g.toObj.conditional_edges = none ∧ g.toObj.default = none ∧
      ∃ ts, g.toObj.nodes = some ts ∧ e.target ∈ ts := by
  have hmem : e ∈ edgesFrom edges sn.id := hsrc ▸ mem_edgesFrom_self edges e he
  have hne : (edgesFrom edges sn.id).isEmpty = false := by
    simpa [List.isEmpty_iff] using List.ne_nil_of_mem hmem
  have hstart : startGroupPart nodes edges =
      [{ fromId := "__start__"
         toObj := { nodes := some ((edgesFrom edges sn.id).map (fun x => x.target)) } }] := by
    simp only [startGroupPart, hfind, hne]
    rfl
  have hmemg : ({ fromId := "__start__"
                  toObj :=
                    { nodes :=
                        some ((edgesFrom edges sn.id).map (fun x => x.target)) } } :
      SimpleEdgeSpec) ∈ convertEdgesToSimpleSpec nodes edges :=
    List.mem_append_left _ (by rw [hstart]; exact List.mem_cons_self _ _)
  exact ⟨_, hmemg, rfl, rfl, rfl, _, rfl, List.mem_map_of_mem (fun x => x.target) hmem⟩

/-! ## Import-side lemmas: which edges the importer creates -/

theorem importRegularTargets_mem (sourceId t : String) :
    ∀ (ts : List String) (c : Nat), t ∈ ts → t ≠ "__end__" →
    ∃ e ∈ (importRegularTargets sourceId ts c).1,
      e.source = sourceId ∧ e.target = t ∧ e.type = "default" := by
  intro ts
  induction ts with
  | nil => intro c h; cases h
  | cons t0 ts ih =>
    intro c hmem hne
    simp only [importRegularTargets]
    split
    · rename_i hEq
      rcases List.mem_cons.mp hmem with h | h
      · exact absurd (h ▸ beq_iff_eq.mp hEq) hne
      · exact ih c h hne
    · rcases List.mem_cons.mp hmem with h | h
      · subst h
        exact ⟨_, List.mem_cons_self _ _, rfl, rfl, rfl⟩
      · obtain ⟨e, he, hp⟩ := ih (c + 1) h hne
        exact ⟨e, List.mem_cons_of_mem _ he, hp⟩

theorem importCondEdges_mem (sourceId : String) (ce : CondEdgeSpec) :
    ∀ (ces : List CondEdgeSpec) (c : Nat), ce ∈ ces →
    ∃ e ∈ (importCondEdges sourceId ces c).1,
      e.source = sourceId ∧ e.target = ce.node ∧ e.type = "conditional" ∧
      e.data.condition = some ce.condition := by
  intro ces
  induction ces with
  | nil => intro c h; cases h
  | cons ce0 ces ih =>
    intro c hmem
    simp only [importCondEdges]
    rcases List.mem_cons.mp hmem with h | h
    · subst h
      exact ⟨_, List.mem_cons_self _ _, rfl, rfl, rfl, rfl⟩
    · obtain ⟨e, he, hp⟩ := ih (c + 1) h
      exact ⟨e, List.mem_cons_of_mem _ he, hp⟩

theorem importDefaultBranch_mem (sourceId d : String) (c : Nat)
    (h1 : d ≠ "") (h2 : d ≠ "__end__") :
    ∃ e ∈ (importDefaultBranch sourceId (some d) c).1,
      e.source = sourceId ∧ e.target = d ∧ e.type = "conditional" ∧
      e.data.condition = some "default" ∧ e.data.label = "FALSE" ∧
      e.data.isTrue = some false := by
  refine ⟨{ id := "edge-" ++ toString (c + 1), source := sourceId, target := d,
            type := "conditional",
            data := { label := "FALSE", condition := some "default", isTrue := some false },
            animated := some false, style := some ("#EF4444", 2) },
    ?_, rfl, rfl, rfl, rfl, rfl, rfl⟩
  simp [importDefaultBranch, h1, h2]

theorem edgesForSpecEdge_mem_reg (nodes : List WorkflowNode) (g : SimpleEdgeSpec)
    (c : Nat) (ts : List String) (t : String)
    (hts : g.toObj.nodes = some ts) (ht : t ∈ ts) (hne : t ≠ "__end__") :
    ∃ e ∈ (edgesForSpecEdge nodes g c).1,
      e.source = resolveFrom nodes g.fromId ∧ e.target = t ∧ e.type = "default" := by
  obtain ⟨e, hmem, hp⟩ :=
    importRegularTargets_mem (resolveFrom nodes g.fromId) t ts c ht hne
  simp only [edgesForSpecEdge, hts]
  cases hce : g.toObj.conditional_edges with
  | none => exact ⟨e, hmem, hp⟩
  | some ces => exact ⟨e, List.mem_append_left _ (List.mem_append_left _ hmem), hp⟩

theorem edgesForSpecEdge_mem_cond (nodes : List WorkflowNode) (g : SimpleEdgeSpec)
    (c : Nat) (ces : List CondEdgeSpec) (ce : CondEdgeSpec)
    (hces : g.toObj.conditional_edges = some ces) (hce : ce ∈ ces) :
    ∃ e ∈ (edgesForSpecEdge nodes g c).1,
      e.source = resolveFrom nodes g.fromId ∧ e.target = ce.node ∧
      e.type = "conditional" ∧ e.data.condition = some ce.condition := by
  simp only [edgesForSpecEdge, hces]
  obtain ⟨e, hmem, hp⟩ := importCondEdges_mem (resolveFrom nodes g.fromId) ce ces
    (match g.toObj.nodes with
     | some ts => importRegularTargets (resolveFrom nodes g.fromId) ts c
     | none => ([], c)).2 hce
  exact ⟨e, List.mem_append_left _ (List.mem_append_right _ hmem), hp⟩

theorem edgesForSpecEdge_mem_default (nodes : List WorkflowNode) (g : SimpleEdgeSpec)
    (c : Nat) (ces : List CondEdgeSpec) (d : String)
    (hces : g.toObj.conditional_edges = some ces) (hd : g.toObj.default = some d)
    (h1 : d ≠ "") (h2 : d ≠ "__end__") :
    ∃ e ∈ (edgesForSpecEdge nodes g c).1,
      e.source = resolveFrom nodes g.fromId ∧ e.target = d ∧
      e.type = "conditional" ∧ e.data.condition = some "default" ∧
      e.data.label = "FALSE" ∧ e.data.isTrue = some false := by
  simp only [edgesForSpecEdge, hces, hd]
  obtain ⟨e, hmem, hp⟩ := importDefaultBranch_mem (resolveFrom nodes g.fromId) d
    (importCondEdges (resolveFrom nodes g.fromId) ces
      (match g.toObj.nodes with
       | some ts => importRegularTargets (resolveFrom nodes g.fromId) ts c
       | none => ([], c)).2).2 h1 h2
  exact ⟨e, List.mem_append_right _ hmem, hp⟩

theorem importEdgesGo_mem (nodes : List WorkflowNode) (P : WorkflowEdge → Prop)
    (g : SimpleEdgeSpec) :
    ∀ (l : List SimpleEdgeSpec) (c : Nat), g ∈ l →
    (∀ c', ∃ e ∈ (edgesForSpecEdge nodes g c').1, P e) →
    ∃ e ∈ (importEdgesGo nodes l c).1, P e := by
  intro l
  induction l with
  | nil => intro c h; cases h
  | cons g0 gs ih =>
    intro c hmem hgen
    simp only [importEdgesGo]
    rcases List.mem_cons.mp hmem with h | h
    · subst h
      obtain ⟨e, he, hp⟩ := hgen c
      exact ⟨e, List.mem_append_left _ he, hp⟩
    · obtain ⟨e, he, hp⟩ := ih _ h hgen
      exact ⟨e, List.mem_append_right _ he, hp⟩

theorem importEdges_mem (nodes : List WorkflowNode) (P : WorkflowEdge → Prop)
    (g : SimpleEdgeSpec) (l : List SimpleEdgeSpec) (hg : g ∈ l)
    (hgen : ∀ c', ∃ e ∈ (edgesForSpecEdge nodes g c').1, P e) :
    ∃ e ∈ importEdges nodes l, P e :=
  importEdgesGo_mem nodes P g l 0 hg hgen

/-- Every `default`-kind edge the importer generates comes from the
`to.nodes` loop, whose `'__end__'` guard already fired. -/
theorem importRegularTargets_shape (sourceId : String) :
    ∀ (ts : List String) (c : Nat), ∀ e ∈ (importRegularTargets sourceId ts c).1,
      e.target ≠ "__end__" ∧ e.type = "default" := by
  intro ts
  induction ts with
  | nil => intro c e h; cases h
  | cons t0 ts ih =>
    intro c e hmem
    simp only [importRegularTargets] at hmem
    split at hmem
    · exact ih c e hmem
    · rename_i hne
      rcases List.mem_cons.mp hmem with h | h
      · subst h
        exact ⟨by simpa using hne, rfl⟩
      · exact ih (c + 1) e h

theorem importCondEdges_shape (sourceId : String) :
    ∀ (ces : List CondEdgeSpec) (c : Nat), ∀ e ∈ (importCondEdges sourceId ces c).1,
      e.type = "conditional" := by
  intro ces
  induction ces with
  | nil => intro c e h; cases h
  | cons ce0 ces ih =>
    intro c e hmem
    simp only [importCondEdges] at hmem
    rcases List.mem_cons.mp hmem with h | h
    · subst h; rfl
    · exact ih (c + 1) e h

theorem importDefaultBranch_shape (sourceId : String) (dflt : Option String)
    (c : Nat) : ∀ e ∈ (importDefaultBranch sourceId dflt c).1,
      e.type = "conditional" := by
  intro e hmem
  rcases dflt with _ | d
  · cases hmem
  · simp only [importDefaultBranch] at hmem
    split at hmem
    · rcases List.mem_cons.mp hmem with h | h
      · subst h; rfl
      · cases h
    · cases hmem

theorem edgesForSpecEdge_shape (nodes : List WorkflowNode) (g : SimpleEdgeSpec)
    (c : Nat) : ∀ e ∈ (edgesForSpecEdge nodes g c).1,
      e.type = "default" → e.target ≠ "__end__" := by
  intro e hmem hdef
  simp only [edgesForSpecEdge] at hmem
  rcases hce : g.toObj.conditional_edges with _ | ces <;> rw [hce] at hmem
  · rcases hts : g.toObj.nodes with _ | ts <;> rw [hts] at hmem
    · cases hmem
    · exact (importRegularTargets_shape _ ts c e hmem).1
  · rcases List.mem_append.mp hmem with h | h
    · rcases List.mem_append.mp h with h2 | h2
      · rcases hts : g.toObj.nodes with _ | ts <;> rw [hts] at h2
        · cases h2
        · exact (importRegularTargets_shape _ ts c e h2).1
      · exact absurd hdef (by rw [importCondEdges_shape _ ces _ e h2]; decide)
    · exact absurd hdef (by rw [importDefaultBranch_shape _ _ _ e h]; decide)

theorem importEdgesGo_shape (nodes : List WorkflowNode) :
    ∀ (l : List SimpleEdgeSpec) (c : Nat), ∀ e ∈ (importEdgesGo nodes l c).1,
      e.type = "default" → e.target ≠ "__end__" := by
  intro l
  induction l with
  | nil => intro c e h; cases h
  | cons g0 gs ih =>
    intro c e hmem hdef
    simp only [importEdgesGo] at hmem
    rcases List.mem_append.mp hmem with h | h
    · exact edgesForSpecEdge_shape nodes g0 c e h hdef
    · exact ih _ e h hdef

/-! ## Import-side lemmas: node reconstruction -/

theorem buildImportInputs_names :
    ∀ (l : List (String × JVal)) (es : List JVal),
    buildImportInputs l = .ok es →
    es.map (fun e => e.getName.toStr) = l.map Prod.fst := by
  intro l
  induction l with
  | nil =>
    intro es h
    cases h
    rfl
  | cons kv rest ih =>
    intro es h
    obtain ⟨key, value⟩ := kv
    simp only [buildImportInputs] at h
    cases hsw : jvalStartsWith value "$config." with
    | error err => rw [hsw] at h; cases h
    | ok isCfg =>
      rw [hsw] at h
      cases hrest : buildImportInputs rest with
      | error err => rw [hrest] at h; cases h
      | ok entries =>
        rw [hrest] at h
        cases h
        simp only [List.map_cons]
        rw [ih entries hrest]
        rfl

theorem buildImportInputs_total :
    ∀ l : List (String × JVal),
    (∀ kv ∈ l, ∃ s, kv.2 = JVal.str s) →
    ∃ es, buildImportInputs l = .ok es := by
  intro l
  induction l with
  | nil => intro _; exact ⟨[], rfl⟩
  | cons kv rest ih =>
    intro h
    obtain ⟨key, value⟩ := kv
    obtain ⟨s, hs⟩ := h (key, value) (List.mem_cons_self _ _)
    have hv : value = JVal.str s := hs
    subst hv
    obtain ⟨es, hes⟩ := ih (fun x hx => h x (List.mem_cons_of_mem _ hx))
    exact ⟨_, by simp only [buildImportInputs, jvalStartsWith, hes]; rfl⟩

theorem importNodeFromSpec_ok (ns : SimpleNodeSpec) (p : Int × Int)
    (n : WorkflowNode) (h : importNodeFromSpec ns p = .ok n) :
    n.id = ns.id ∧ n.type = ns.type ∧
    n.data.label = (if ns.label = "" then ns.id else ns.label) ∧
    inputPortNames n = ns.inputs.map Prod.fst ∧
    outputPortNames n = ns.outputs.map Prod.fst := by
  simp only [importNodeFromSpec] at h
  cases hb : buildImportInputs ns.inputs with
  | error err => rw [hb] at h; cases h
  | ok inputs =>
    rw [hb] at h
    cases h
    refine ⟨rfl, rfl, ?_, ?_, ?_⟩
    · by_cases hl : ns.label = ""
      · simp [mkWorkflowNode, initNodeData, hl]
      · simp [mkWorkflowNode, initNodeData, hl]
    · simpa [inputPortNames, mkWorkflowNode, initNodeData, resolvedPortNames]
        using buildImportInputs_names ns.inputs inputs hb
    · simp [outputPortNames, mkWorkflowNode, initNodeData, resolvedPortNames,
        buildImportOutputs, List.map_map, Function.comp, JVal.getName, JVal.toStr]

theorem importNodes_forall2 (env : ImportEnv) :
    ∀ (l : List SimpleNodeSpec) (i : Nat) (ns : List WorkflowNode),
    importNodes env l i = .ok ns →
    List.Forall₂ (fun s n => ∃ p, importNodeFromSpec s p = .ok n) l ns := by
  intro l
  induction l with
  | nil => intro i ns h; cases h; exact List.Forall₂.nil
  | cons s rest ih =>
    intro i ns h
    simp only [importNodes] at h
    cases h1 : importNodeFromSpec s (env.randPos i) with
    | error err => rw [h1] at h; cases h
    | ok n =>
      rw [h1] at h
      cases h2 : importNodes env rest (i + 1) with
      | error err => rw [h2] at h; cases h
      | ok tl =>
        rw [h2] at h
        cases h
        exact List.Forall₂.cons ⟨_, h1⟩ (ih _ _ h2)

theorem importNodes_total (env : ImportEnv) :
    ∀ (l : List SimpleNodeSpec) (i : Nat),
    (∀ ns ∈ l, ∀ kv ∈ ns.inputs, ∃ s, kv.2 = JVal.str s) →
    ∃ nsl, importNodes env l i = .ok nsl := by
  intro l
  induction l with
  | nil => intro i _; exact ⟨[], rfl⟩
  | cons s rest ih =>
    intro i h
    obtain ⟨es, hes⟩ :=
      buildImportInputs_total s.inputs (h s (List.mem_cons_self _ _))
    obtain ⟨tl, htl⟩ := ih (i + 1) (fun x hx => h x (List.mem_cons_of_mem _ hx))
    exact ⟨_, by simp only [importNodes, importNodeFromSpec, hes, htl]; rfl⟩

theorem importFromSimpleSpec_ok (env : ImportEnv) (spec : SimpleWorkflowSpec)
    (w : Workflow) (h : importFromSimpleSpec env spec = .ok w) :
    importNodes env spec.nodes 0 = .ok w.nodes ∧
    w.edges = importEdges w.nodes spec.edges := by
  simp only [importFromSimpleSpec] at h
  cases hn : importNodes env spec.nodes 0 with
  | error err => rw [hn] at h; cases h
  | ok nodes => rw [hn] at h; cases h; exact ⟨rfl, rfl⟩

theorem find_start_parity :
    ∀ (l l' : List WorkflowNode),
    List.Forall₂ (fun a b => b.id = a.id ∧ b.type = a.type) l l' →
    Option.map (fun n => n.id) (l'.find? (fun n => n.type == "start")) =
      Option.map (fun n => n.id) (l.find? (fun n => n.type == "start")) := by
  intro l l' h
  induction h with
  | nil => rfl
  | @cons a b l0 l0' hab htail ih =>
    rcases hab with ⟨hid, hty⟩
    simp only [List.find?, hty]
    cases ht : (a.type == "start") with
    | true => simp [ht, hid]
    | false => simpa [ht] using ih

theorem resolveFrom_start (nodes' : List WorkflowNode) (sid : String)
    (h : Option.map (fun n => n.id) (nodes'.find? (fun n => n.type == "start")) =
      some sid)
    (hne : sid ≠ "") :
    resolveFrom nodes' "__start__" = sid := by
  cases hf : nodes'.find? (fun n => n.type == "start") with
  | none => rw [hf] at h; cases h
  | some n' =>
    rw [hf] at h
    have hid : n'.id = sid := by simpa using h
    simp [resolveFrom, hf, hid, hne]

theorem resolveFrom_not_start (nodes' : List WorkflowNode) (f : String)
    (h : f ≠ "__start__") : resolveFrom nodes' f = f := by
  simp [resolveFrom, h]

/-- CLAIM C6 (amended): `importFromSimpleSpec` is total — produces a
workflow rather than throwing — on every spec whose node input values are
all strings, which is exactly the declared wire type
(`inputs: Record<string, string>`).  (On a numeric or boolean input value
it instead throws `TypeError: value.startsWith is not a function` — see the
counterexample.  The exporter side of the claim is total by construction:
`exportToSimpleSpec` is a plain function into `SimpleWorkflowSpec` with no
error channel.) -/
theorem C6_import_total_on_string_inputs (env : ImportEnv)
    (spec : SimpleWorkflowSpec)
    (h : ∀ ns ∈ spec.nodes, ∀ kv ∈ ns.inputs, ∃ s, kv.2 = JVal.str s) :
    ∃ w, importFromSimpleSpec env spec = .ok w := by
  obtain ⟨nsl, hns⟩ := importNodes_total env spec.nodes 0 h
  exact ⟨_, by simp only [importFromSimpleSpec, hns]; rfl⟩

/-- CLAIM C6 witness: the totality theorem applied to a concrete all-string
spec. -/
theorem C6_import_total_witness :
    (∀ ns ∈ stringInputSpec.nodes, ∀ kv ∈ ns.inputs, ∃ s, kv.2 = JVal.str s) ∧
    (∃ w, importFromSimpleSpec {} stringInputSpec = .ok w) :=
  ⟨by
    intro ns hns kv hkv
    have hns' : ns = stringInputSpec.nodes.head (by simp [stringInputSpec]) := by
      simpa [stringInputSpec] using hns
    subst hns'
    rcases (by simpa [stringInputSpec] using hkv :
        kv = ("x", JVal.str "$config.k") ∨ kv = ("y", JVal.str "lit")) with h | h <;>
      subst h
    · exact ⟨"$config.k", rfl⟩
    · exact ⟨"lit", rfl⟩,
   C6_import_total_on_string_inputs {} stringInputSpec (by
    intro ns hns kv hkv
    have hns' : ns = stringInputSpec.nodes.head (by simp [stringInputSpec]) := by
      simpa [stringInputSpec] using hns
    subst hns'
    rcases (by simpa [stringInputSpec] using hkv :
        kv = ("x", JVal.str "$config.k") ∨ kv = ("y", JVal.str "lit")) with h | h <;>
      subst h
    · exact ⟨"$config.k", rfl⟩
    · exact ⟨"lit", rfl⟩)⟩

/-- CLAIM C6 counterexample: a node whose `inputs` map holds the number `5`
(a value §3 of the spec allows on the wire) makes `importFromSimpleSpec`
throw a `TypeError` from `value.startsWith('$config.')`, so Import is not
total over specs with `string|number|boolean` input values. -/
theorem C6_import_throws_on_number_counterexample :
    importFromSimpleSpec {} numericInputSpec =
      .error { message := "value.startsWith is not a function" } := by
  decide

/-! ## Claims C2-C5 -/

theorem startGroupPart_cond_none (nodes : List WorkflowNode)
    (edges : List WorkflowEdge) (g : SimpleEdgeSpec)
    (h : g ∈ startGroupPart nodes edges) :
    g.toObj.conditional_edges = none := by
  simp only [startGroupPart] at h
  cases hf : nodes.find? (fun n => n.type == "start") with
  | none => rw [hf] at h; cases h
  | some sn =>
    rw [hf] at h
    cases hie : (edgesFrom edges sn.id).isEmpty with
    | true => simp [hie] at h
    | false =>
      simp [hie] at h
      subst h
      rfl

theorem specForSource_of_both_nil (s : String) (es : List WorkflowEdge)
    (hc : es.filter (fun e => e.type == "conditional") = [])
    (hr : es.filter (fun e => !(e.type == "conditional")) = []) :
    specForSource s es = none := by
  simp [specForSource, hc, hr]

/-- CLAIM C2 (amended): for every source group the exporter emits with a
`conditional_edges` field, it populates *both* `to.nodes` and `to.default`:
`to.default` is always the constant `'__end__'`, and `to.nodes` holds the
group's non-conditional targets — or the `['__end__']` filler when the
group has no non-conditional edge, which *is* emitted.  (The claimed
exactly-one-of exclusivity and the claimed absence of the
`to.nodes = ['__end__']` filler are both false — see the counterexample.
`to.nodes` and `to.default` can only name the same target when a
non-conditional edge's raw target is the literal string `'__end__'`.) -/
theorem C2_conditional_group_shape (nodes : List WorkflowNode)
    (edges : List WorkflowEdge) (g : SimpleEdgeSpec)
    (hg : g ∈ convertEdgesToSimpleSpec nodes edges)
    (ces : List CondEdgeSpec)
    (hces : g.toObj.conditional_edges = some ces) :
    g.toObj.default = some "__end__" ∧
    g.toObj.nodes = some (regularTargetsOrEndFiller edges g.fromId) := by
  rcases List.mem_append.mp hg with h | h
  · rw [startGroupPart_cond_none nodes edges g h] at hces
    cases hces
  · obtain ⟨s, _, _, hspec⟩ := (restGroupsPart_mem_iff nodes edges g).mp h
    by_cases hcne : (edgesFrom edges s).filter (fun e => e.type == "conditional") = []
    · by_cases hrne : (edgesFrom edges s).filter (fun e => !(e.type == "conditional")) = []
      · rw [specForSource_of_both_nil s _ hcne hrne] at hspec
        cases hspec
      · rw [specForSource_of_cond_nil s _ hcne hrne] at hspec
        cases hspec
        cases hces
    · rw [specForSource_of_cond_ne_nil s _ hcne] at hspec
      cases hspec
      refine ⟨rfl, ?_⟩
      simp only [regularTargetsOrEndFiller]
      cases hre : ((edgesFrom edges s).filter
          (fun e => !(e.type == "conditional"))).isEmpty <;> simp [hre]

/-- CLAIM C2 witness: the amended shape theorem applied to the concrete
one-conditional-plus-one-plain group. -/
theorem C2_conditional_group_shape_witness :
    condGroupSample ∈ convertEdgesToSimpleSpec [] condPlusPlainEdges ∧
    condGroupSample.toObj.default = some "__end__" ∧
    condGroupSample.toObj.nodes =
      some (regularTargetsOrEndFiller condPlusPlainEdges condGroupSample.fromId) :=
  ⟨by decide,
   (C2_conditional_group_shape [] condPlusPlainEdges condGroupSample (by decide)
     [{ condition := "c1", node := "b" }] rfl).1,
   (C2_conditional_group_shape [] condPlusPlainEdges condGroupSample (by decide)
     [{ condition := "c1", node := "b" }] rfl).2⟩

/-- CLAIM C2 counterexample: for the group of source `a` with one
conditional edge (`a → b`) and exactly one plain edge (`a → c`), the
emitted `to` populates *both* `nodes := ["c"]` and `default := "__end__"`
(the claim says exactly one); and for a group with a conditional edge and
no plain edge, `to.nodes = ["__end__"]` *is* emitted (the claim says it is
not). -/
theorem C2_conditional_group_counterexample :
    convertEdgesToSimpleSpec [] condPlusPlainEdges =
      [{ fromId := "a"
         toObj := { conditional_edges := some [{ condition := "c1", node := "b" }]
                    nodes := some ["c"]
                    default := some "__end__" } }] ∧
    convertEdgesToSimpleSpec [] condOnlyEdges =
      [{ fromId := "a"
         toObj := { conditional_edges := some [{ condition := "c1", node := "b" }]
                    nodes := some ["__end__"]
                    default := some "__end__" } }] := by
  decide

/-- CLAIM C3 (amended): `SimpleWorkflowExporter.convertEdgesToSimpleSpec`
never substitutes the `'__end__'` sentinel for an edge target: for every
edge whose source is not the exporter's start node — in particular for
every edge into an end node — the emitted group carries the *raw* target
id: a non-conditional edge's target appears inside `to.nodes`, a
conditional edge's target appears as `conditional_edges[].node`.  The only
`'__end__'` strings it emits are the constant `to.default` and the
`to.nodes = ['__end__']` filler of conditional-only groups. -/
theorem C3_raw_targets_no_end_sentinel (nodes : List WorkflowNode)
    (edges : List WorkflowEdge) (e : WorkflowEdge) (he : e ∈ edges)
    (hns : ¬ exporterStartSource nodes e.source) :
    ∃ g ∈ convertEdgesToSimpleSpec nodes edges, g.fromId = e.source ∧
      (e.type = "conditional" →
        ∃ ces, g.toObj.conditional_edges = some ces ∧
          ({ condition := condOr e.data.condition, node := e.target } : CondEdgeSpec) ∈ ces) ∧
      (e.type ≠ "conditional" →
        ∃ ts, g.toObj.nodes = some ts ∧ e.target ∈ ts) :=
  export_group_mem nodes edges e he hns

/-- CLAIM C3 witness: the amended theorem applied to the plain edge
`n1 → e` of the workflow whose only end node is `e`. -/
theorem C3_raw_targets_witness :
    ({ id := "e1", source := "n1", target := "e", type := "default",
       data := {} } : WorkflowEdge) ∈ endTargetWorkflow.edges ∧
    (∃ g ∈ convertEdgesToSimpleSpec endTargetWorkflow.nodes endTargetWorkflow.edges,
      g.fromId = "n1" ∧
      ((("default" : String) = "conditional") →
        ∃ ces, g.toObj.conditional_edges = some ces ∧
          ({ condition := condOr none, node := "e" } : CondEdgeSpec) ∈ ces) ∧
      ((("default" : String) ≠ "conditional") →
        ∃ ts, g.toObj.nodes = some ts ∧ ("e" : String) ∈ ts)) :=
  ⟨by decide,
   C3_raw_targets_no_end_sentinel endTargetWorkflow.nodes endTargetWorkflow.edges
     { id := "e1", source := "n1", target := "e", type := "default", data := {} }
     (by decide)
     (by
       rintro ⟨sn, hfind, _⟩
       rw [show endTargetWorkflow.nodes.find? (fun n => n.type == "start") = none
         from by decide] at hfind
       cases hfind)⟩

/-- CLAIM C3 counterexample: `endTargetWorkflow` has exactly one end node,
`e`; its exported edge group for source `n1` lists the non-conditional edge
into `e` as the raw id `"e"` inside `to.nodes` (not `"__end__"`) and the
conditional edge into `e` with `node := "e"` (not `"__end__"`), so the
claimed sentinel substitution does not happen. -/
theorem C3_end_sentinel_counterexample :
    (endTargetWorkflow.nodes.filter (fun n => n.type == "end")).length = 1 ∧
    convertEdgesToSimpleSpec endTargetWorkflow.nodes endTargetWorkflow.edges =
      [{ fromId := "n1"
         toObj := { conditional_edges := some [{ condition := "c", node := "e" }]
                    nodes := some ["e"]
                    default := some "__end__" } }] ∧
    ("e" : String) ≠ "__end__" := by
  decide

/-- CLAIM C4 (amended): on import, `to.nodes` entries equal to `'__end__'`
are *dropped* (no `default`-kind edge ever targets `'__end__'`, and no edge
into the end node is created for them); every other `to.nodes` entry
becomes a `default`-kind edge and every `conditional_edges` entry becomes a
`conditional`-kind edge — both from `resolveFrom w.nodes g.from`, which
maps `'__start__'` to the first start node's id when one exists with a
nonempty id and to the literal string `'start'` (not `'__start__'`)
otherwise, and leaves every other `from` unchanged; `conditional_edges[].node`
entries are kept literally, `'__end__'` included.  The importer's edge
phase never throws (it is a total function by construction). -/
theorem C4_sentinel_resolution (env : ImportEnv) (spec : SimpleWorkflowSpec)
    (w : Workflow) (himp : importFromSimpleSpec env spec = .ok w) :
    (∀ e ∈ w.edges, e.type = "default" → e.target ≠ "__end__") ∧
    (∀ g ∈ spec.edges, ∀ ts, g.toObj.nodes = some ts → ∀ t ∈ ts, t ≠ "__end__" →
      ∃ e ∈ w.edges, e.source = resolveFrom w.nodes g.fromId ∧ e.target = t ∧
        e.type = "default") ∧
    (∀ g ∈ spec.edges, ∀ ces, g.toObj.conditional_edges = some ces → ∀ ce ∈ ces,
      ∃ e ∈ w.edges, e.source = resolveFrom w.nodes g.fromId ∧ e.target = ce.node ∧
        e.type = "conditional") := by
  obtain ⟨_, hedges⟩ := importFromSimpleSpec_ok env spec w himp
  refine ⟨?_, ?_, ?_⟩
  · intro e he hdef
    rw [hedges] at he
    exact importEdgesGo_shape w.nodes spec.edges 0 e he hdef
  · intro g hg ts hts t ht htne
    rw [hedges]
    exact importEdges_mem w.nodes _ g spec.edges hg
      (fun c' => edgesForSpecEdge_mem_reg w.nodes g c' ts t hts ht htne)
  · intro g hg ces hces ce hce
    rw [hedges]
    refine importEdges_mem w.nodes _ g spec.edges hg (fun c' => ?_)
    obtain ⟨e, hm, h1, h2, h3, _⟩ :=
      edgesForSpecEdge_mem_cond w.nodes g c' ces ce hces hce
    exact ⟨e, hm, h1, h2, h3⟩

/-- CLAIM C4 witness: the amended theorem applied to `richImportSpec`. -/
theorem C4_sentinel_resolution_witness :
    importFromSimpleSpec {} richImportSpec = .ok richImported ∧
    (∃ e ∈ richImported.edges,
      e.source = resolveFrom richImported.nodes "u" ∧ e.target = "v" ∧
      e.type = "default") :=
  ⟨by decide,
   (C4_sentinel_resolution {} richImportSpec richImported (by decide)).2.1
     { fromId := "u"
       toObj := { conditional_edges := some [{ condition := "c", node := "w" }]
                  nodes := some ["v", "__end__"]
                  default := some "d" } }
     (by decide) ["v", "__end__"] rfl "v" (by decide) (by decide)⟩

/-- CLAIM C4 counterexample: importing a spec whose only node is the end
node `e` and whose single edge is
`{from: '__start__', to: {nodes: ['__end__', 'b']}}` (no start node exists)
yields exactly one edge `('start', 'b', 'default')`: the `'__end__'` entry
is dropped instead of being resolved to `e` (no default-kind edge into `e`
is created), and the unresolvable `'__start__'` endpoint becomes the
literal `'start'`, not the sentinel string `'__start__'` the claim
promises. -/
theorem C4_sentinel_resolution_counterexample :
    (importFromSimpleSpec {} sentinelSpec).map
      (fun w => w.edges.map (fun e => (e.source, e.target, e.type))) =
      .ok [("start", "b", "default")] ∧
    sentinelSpec.nodes.map (fun n => (n.id, n.type)) = [("e", "end")] := by
  decide

/-- CLAIM C5 (amended): a `to.default` value creates an edge only when the
spec edge also carries `to.conditional_edges` (the default branch is nested
inside that branch in the source); when it does, and the value is present
(nonempty) and not `'__end__'`, an additional edge from the resolved source
to that target is created — of kind `conditional` (not `default`), with
label `'FALSE'`, condition string `'default'` and `isTrue: false`.  When
`conditional_edges` is absent, `to.default` is ignored entirely — see the
counterexample. -/
theorem C5_default_branch_edge (env : ImportEnv) (spec : SimpleWorkflowSpec)
    (w : Workflow) (himp : importFromSimpleSpec env spec = .ok w) :
    ∀ g ∈ spec.edges, ∀ ces d, g.toObj.conditional_edges = some ces →
      g.toObj.default = some d → d ≠ "" → d ≠ "__end__" →
      ∃ e ∈ w.edges, e.source = resolveFrom w.nodes g.fromId ∧ e.target = d ∧
        e.type = "conditional" ∧ e.data.condition = some "default" ∧
        e.data.label = "FALSE" ∧ e.data.isTrue = some false := by
  obtain ⟨_, hedges⟩ := importFromSimpleSpec_ok env spec w himp
  intro g hg ces d hces hd h1 h2
  rw [hedges]
  exact importEdges_mem w.nodes _ g spec.edges hg
    (fun c' => edgesForSpecEdge_mem_default w.nodes g c' ces d hces hd h1 h2)

/-- CLAIM C5 witness: the amended theorem applied to `richImportSpec`'s
`to.default = 'd'`. -/
theorem C5_default_branch_edge_witness :
    importFromSimpleSpec {} richImportSpec = .ok richImported ∧
    (∃ e ∈ richImported.edges,
      e.source = resolveFrom richImported.nodes "u" ∧ e.target = "d" ∧
      e.type = "conditional" ∧ e.data.condition = some "default" ∧
      e.data.label = "FALSE" ∧ e.data.isTrue = some false) :=
  ⟨by decide,
   C5_default_branch_edge {} richImportSpec richImported (by decide)
     { fromId := "u"
       toObj := { conditional_edges := some [{ condition := "c", node := "w" }]
                  nodes := some ["v", "__end__"]
                  default := some "d" } }
     (by decide) [{ condition := "c", node := "w" }] "d" rfl rfl (by decide)
     (by decide)⟩

/-- CLAIM C5 counterexample: the spec edge `{from: 'a', to: {default: 'b'}}`
(present, non-`'__end__'` default, but no `conditional_edges`) creates *no*
edge at all; and with an (empty) `conditional_edges` present, the created
edge has kind `conditional` with condition `'default'`, not kind
`default` — so the claim's unconditional one-default-kind-edge-per-default
is false on both counts. -/
theorem C5_default_branch_counterexample :
    (importFromSimpleSpec {} defaultBranchSpec).map
      (fun w => w.edges.map (fun e => (e.source, e.target, e.type, e.data.condition))) =
      .ok [("a2", "b", "conditional", some "default")] := by
  decide

/-! ## Claim C1: the round-trip contract -/

theorem forall2_map_id {R : WorkflowNode → WorkflowNode → Prop}
    (hR : ∀ a b, R a b → b.id = a.id) :
    ∀ (l l' : List WorkflowNode), List.Forall₂ R l l' →
    l'.map (fun n => n.id) = l.map (fun n => n.id) := by
  intro l l' h
  induction h with
  | nil => rfl
  | cons hab _ ih => simp [List.map_cons, hR _ _ hab, ih]

/-- CLAIM C1 (amended): for every workflow satisfying the §3 well-formedness
invariant (edge endpoints reference existing node ids; node ids are
nonempty and are not the sentinel strings) whose export the importer
accepts, the round trip `importFromSimpleSpec ∘ exportToSimpleSpec`
yields `W'` with: the node id sequence of `W` (hence the node id set);
every node's `kind` preserved; every node's label preserved up to the
source's `label || id` defaulting; every node's resolved input/output port
*names* equal to the keys of the exported node — i.e. `W`'s ports after the
exporter's reference rewriting and type-default injection, **not** `W`'s
original port sets (the counterexample shows a start node gaining the
injected `trigger` output); and for every edge of `W` an edge of `W'` with
the same raw source and target (no sentinel mapping is needed: the importer
resolves `'__start__'` back to the preserved start node id and the exporter
never writes `'__end__'` over a target), where the kind is preserved
exactly for conditional edges not leaving the start node (with condition
preserved up to the `condition || 'true'` defaulting), and every other
edge — including every edge leaving the start node — comes back with kind
`default`. -/
theorem C1_roundtrip_contract (W : Workflow) (env : ImportEnv) (W' : Workflow)
    (hsrc : ∀ e ∈ W.edges, ∃ n ∈ W.nodes, n.id = e.source)
    (htgt : ∀ e ∈ W.edges, ∃ n ∈ W.nodes, n.id = e.target)
    (hids : ∀ n ∈ W.nodes, n.id ≠ "" ∧ n.id ≠ "__start__" ∧ n.id ≠ "__end__")
    (himp : importFromSimpleSpec env (exportToSimpleSpec W) = .ok W') :
    W'.nodes.map (fun n => n.id) = W.nodes.map (fun n => n.id) ∧
    List.Forall₂ (fun n n' =>
      n'.id = n.id ∧ n'.type = n.type ∧
      n'.data.label = (if n.data.label = "" then n.id else n.data.label) ∧
      inputPortNames n' = (convertNodeToSimpleSpec n W.nodes).inputs.map Prod.fst ∧
      outputPortNames n' = (convertNodeToSimpleSpec n W.nodes).outputs.map Prod.fst)
      W.nodes W'.nodes ∧
    (∀ e ∈ W.edges,
      (e.type = "conditional" ∧ ¬ exporterStartSource W.nodes e.source →
        ∃ e' ∈ W'.edges, e'.source = e.source ∧ e'.target = e.target ∧
          e'.type = "conditional" ∧
          e'.data.condition = some (condOr e.data.condition)) ∧
      ((e.type = "conditional" → exporterStartSource W.nodes e.source) →
        ∃ e' ∈ W'.edges, e'.source = e.source ∧ e'.target = e.target ∧
          e'.type = "default")) := by
  obtain ⟨hn, hedges⟩ := importFromSimpleSpec_ok env _ W' himp
  have hf2spec := importNodes_forall2 env _ 0 W'.nodes hn
  have hf2 : List.Forall₂ (fun wn n' =>
      ∃ p, importNodeFromSpec (convertNodeToSimpleSpec wn W.nodes) p = .ok n')
      W.nodes W'.nodes := by
    rw [show (exportToSimpleSpec W).nodes
        = W.nodes.map (fun node => convertNodeToSimpleSpec node W.nodes) from rfl] at hf2spec
    rwa [List.forall₂_map_left_iff] at hf2spec
  have hprops : List.Forall₂ (fun n n' =>
      n'.id = n.id ∧ n'.type = n.type ∧
      n'.data.label = (if n.data.label = "" then n.id else n.data.label) ∧
      inputPortNames n' = (convertNodeToSimpleSpec n W.nodes).inputs.map Prod.fst ∧
      outputPortNames n' = (convertNodeToSimpleSpec n W.nodes).outputs.map Prod.fst)
      W.nodes W'.nodes := by
    refine hf2.imp ?_
    rintro a b ⟨p, hok⟩
    obtain ⟨h1, h2, h3, h4, h5⟩ := importNodeFromSpec_ok _ p b hok
    refine ⟨h1, h2, ?_, h4, h5⟩
    rw [h3]
    by_cases hl : a.data.label = ""
    · simp [convertNodeToSimpleSpec, hl]
    · simp [convertNodeToSimpleSpec, hl]
  have hpair : List.Forall₂ (fun a b => b.id = a.id ∧ b.type = a.type)
      W.nodes W'.nodes :=
    hprops.imp (fun a b h => ⟨h.1, h.2.1⟩)
  refine ⟨forall2_map_id (fun a b h => h.1) _ _ hprops, hprops, ?_⟩
  intro e he
  obtain ⟨nsrc, hnsrc, hnsrcid⟩ := hsrc e he
  have hsrcP := hids nsrc hnsrc
  rw [hnsrcid] at hsrcP
  obtain ⟨ntgt, hntgt, hntgtid⟩ := htgt e he
  have htgtP := hids ntgt hntgt
  rw [hntgtid] at htgtP
  constructor
  · rintro ⟨hcond, hnstart⟩
    obtain ⟨g, hg, hgfrom, hgc, _⟩ := export_group_mem W.nodes W.edges e he hnstart
    obtain ⟨ces, hces, hcemem⟩ := hgc hcond
    rw [hedges]
    refine importEdges_mem W'.nodes _ g _ hg (fun c' => ?_)
    obtain ⟨e', hm, h1, h2, h3, h4⟩ :=
      edgesForSpecEdge_mem_cond W'.nodes g c' ces _ hces hcemem
    refine ⟨e', hm, ?_, h2, h3, h4⟩
    rw [h1, hgfrom, resolveFrom_not_start _ _ hsrcP.2.1]
  · intro himpl
    by_cases hss : exporterStartSource W.nodes e.source
    · obtain ⟨sn, hfind, hsnid⟩ := hss
      obtain ⟨g, hg, hgfrom, _, _, ts, hts, htmem⟩ :=
        export_start_mem W.nodes W.edges sn hfind e he hsnid.symm
      rw [hedges]
      refine importEdges_mem W'.nodes _ g _ hg (fun c' => ?_)
      obtain ⟨e', hm, h1, h2, h3⟩ :=
        edgesForSpecEdge_mem_reg W'.nodes g c' ts e.target hts htmem htgtP.2.2
      refine ⟨e', hm, ?_, h2, h3⟩
      rw [h1, hgfrom]
      apply resolveFrom_start
      · rw [find_start_parity W.nodes W'.nodes hpair, hfind]
        simp [hsnid]
      · exact hsrcP.1
    · have hcond : e.type ≠ "conditional" := fun hc => hss (himpl hc)
      obtain ⟨g, hg, hgfrom, _, hgreg⟩ := export_group_mem W.nodes W.edges e he hss
      obtain ⟨ts, hts, htmem⟩ := hgreg hcond
      rw [hedges]
      refine importEdges_mem W'.nodes _ g _ hg (fun c' => ?_)
      obtain ⟨e', hm, h1, h2, h3⟩ :=
        edgesForSpecEdge_mem_reg W'.nodes g c' ts e.target hts htmem htgtP.2.2
      exact ⟨e', hm, by rw [h1, hgfrom, resolveFrom_not_start _ _ hsrcP.2.1], h2, h3⟩

/-- CLAIM C1 witness: the amended round-trip contract applied to the
concrete `start → llm → end` sample workflow (whose export the importer
accepts). -/
theorem C1_roundtrip_contract_witness :
    importFromSimpleSpec {} (exportToSimpleSpec sampleWorkflow) =
      .ok sampleRoundTripped ∧
    (sampleRoundTripped.nodes.map (fun n => n.id) =
      sampleWorkflow.nodes.map (fun n => n.id) ∧
    List.Forall₂ (fun n n' =>
      n'.id = n.id ∧ n'.type = n.type ∧
      n'.data.label = (if n.data.label = "" then n.id else n.data.label) ∧
      inputPortNames n' =
        (convertNodeToSimpleSpec n sampleWorkflow.nodes).inputs.map Prod.fst ∧
      outputPortNames n' =
        (convertNodeToSimpleSpec n sampleWorkflow.nodes).outputs.map Prod.fst)
      sampleWorkflow.nodes sampleRoundTripped.nodes ∧
    (∀ e ∈ sampleWorkflow.edges,
      (e.type = "conditional" ∧ ¬ exporterStartSource sampleWorkflow.nodes e.source →
        ∃ e' ∈ sampleRoundTripped.edges, e'.source = e.source ∧
          e'.target = e.target ∧ e'.type = "conditional" ∧
          e'.data.condition = some (condOr e.data.condition)) ∧
      ((e.type = "conditional" → exporterStartSource sampleWorkflow.nodes e.source) →
        ∃ e' ∈ sampleRoundTripped.edges, e'.source = e.source ∧
          e'.target = e.target ∧ e'.type = "default"))) :=
  ⟨by decide,
   C1_roundtrip_contract sampleWorkflow {} sampleRoundTripped
     (by decide) (by decide) (by decide) (by decide)⟩

/-- CLAIM C1 counterexample: round-tripping a workflow holding a single
start node whose only output port is `value` yields a node whose resolved
output port set is `{value, trigger}` — the exporter unconditionally
injects the `trigger: 'boolean'` default output for start nodes — which
differs from `W`'s `{value}`; the claimed equality of resolved output port
sets therefore fails. -/
theorem C1_roundtrip_counterexample :
    (importFromSimpleSpec {} (exportToSimpleSpec startOnlyWorkflow)).map
      (fun w => w.nodes.map outputPortNames) = .ok [["value", "trigger"]] ∧
    startOnlyWorkflow.nodes.map outputPortNames = [["value"]] ∧
    ("trigger" : String) ∉ (["value"] : List String) := by
  decide

end WorkflowPE
